import Mathlib

/-!
# A verification development for the `sas::Image` pixel buffer

The embedding follows `src/image.cc`.

Modelling conventions.
* A C++ `int` is a Lean `Int`.  Signed overflow is undefined behaviour in C++,
  so the embedding describes the executions in which no `int` computation
  overflows.
* `size_t` is 64 bits wide and unsigned arithmetic wraps: the product computed
  by `Image::size` is taken modulo `2 ^ 64`.  An allocation holds fewer than
  `2 ^ 64` bytes.
* A byte (`uint8_t`) is a `Nat`.
* The storage `pdata_` is `Option (List Nat)`: `none` is the null pointer,
  `some bytes` an allocation holding exactly those bytes.
* A failed `assert`, a null dereference or an access outside the allocation is
  a fatal outcome; every operation that can reach one returns an `Option`, and
  `none` is the fatal outcome.
* `new uint8_t[n]` yields indeterminate bytes; the allocating constructor takes
  them as a parameter `junk : Nat → Nat` (the byte found at each index).
* C++ `/` on `int` truncates towards zero: `Int.tdiv`.
-/

namespace sas

/-- The fields of `struct Image`: `h_`, `w_`, `c_` and `pdata_`. -/
structure Image where
  h : Int
  w : Int
  c : Int
  pdata : Option (List Nat)
deriving DecidableEq, Repr

namespace Image

/-- The default constructor `Image::Image()`. -/
def mkEmpty : Image := ⟨0, 0, 0, none⟩

/-- The method `Image::size`: `static_cast<size_t>(h_) * w_ * c_`, a product of
`size_t` values, which wraps modulo `2 ^ 64`. -/
def size (m : Image) : Int := (m.h * m.w * m.c) % 2 ^ 64

/-- The method `Image::empty`; it asserts that an image of size 0 has no storage. -/
def empty (m : Image) : Option Bool :=
  if m.size = 0 then
    (if m.pdata.isNone then some true else none)
  else some false

/-- The method `Image::clear`. -/
def clear (_m : Image) : Image := ⟨0, 0, 0, none⟩

/-- The method `Image::check`. -/
def check (m : Image) (x y z : Int) : Bool :=
  if x < 0 then false
  else if y < 0 then false
  else if z < 0 then false
  else if x ≥ m.h then false
  else if y ≥ m.w then false
  else if z ≥ m.c then false
  else true

/-- The method `Image::offset`, with its three assertions. -/
def offset (m : Image) (x y z : Int) : Option Nat :=
  if m.check x y z then
    match m.empty with
    | some false =>
      let pos := z + (y * m.c) + (x * m.c * m.w)
      if pos < m.size then some pos.toNat else none
    | _ => none
  else none

/-- The const method `Image::pixel`: the byte at `offset x y z`. -/
def pixel (m : Image) (x y z : Int) : Option Nat :=
  match m.offset x y z with
  | none => none
  | some pos =>
    match m.pdata with
    | none => none
    | some d => d[pos]?

/-- A store through the reference returned by the non-const `Image::pixel`:
`pixel(x, y, z) = pxl`. -/
def storePixel (m : Image) (x y z : Int) (pxl : Nat) : Option Image :=
  match m.offset x y z with
  | none => none
  | some pos =>
    match m.pdata with
    | none => none
    | some d => if pos < d.length then some { m with pdata := some (d.set pos pxl) } else none

/-- The method `Image::setPixel`. -/
def setPixel (m : Image) (x y z : Int) (pxl : Nat) : Option Image :=
  m.storePixel x y z pxl

/-- The constructor `Image::Image(int h, int w, int c)`; the fresh allocation
holds the indeterminate bytes `junk 0, junk 1, ...`. -/
def mkSized (h w c : Int) (junk : Nat → Nat) : Option Image :=
  if h > 0 ∧ w > 0 ∧ c > 0 then
    let m : Image := ⟨h, w, c, none⟩
    if m.size > 0 then some { m with pdata := some ((List.range m.size.toNat).map junk) }
    else none
  else none

/-- The constructor `Image::Image(int h, int w, int c, uint8_t pxl)`. -/
def mkFilled (h w c : Int) (pxl : Nat) : Option Image :=
  if h > 0 ∧ w > 0 ∧ c > 0 then
    let m : Image := ⟨h, w, c, none⟩
    some { m with pdata := some (List.replicate m.size.toNat pxl) }
  else none

/-- The method `Image::swap` on two distinct objects: the pair after the call. -/
def swap (a b : Image) : Image × Image := (b, a)

end Image

/-- A counting loop `for (int i = lo; ...; i++) body`, run for `n` iterations
from `lo`; a fatal outcome in the body ends the run. -/
def forLoop {σ : Type} (body : Int → σ → Option σ) : Nat → Int → σ → Option σ
  | 0, _, s => some s
  | n + 1, i, s =>
    match body i s with
    | none => none
    | some s' => forLoop body n (i + 1) s'

/-- The loop `for (int i = lo; i < hi; i++) body`, whose body changes neither
`i` nor `hi`: it runs `hi - lo` times when `lo < hi` and not at all otherwise. -/
def forRange {σ : Type} (lo hi : Int) (body : Int → σ → Option σ) (s : σ) : Option σ :=
  forLoop body (hi - lo).toNat lo s

/-- A counting loop with a leading `if (brk) break;` in its body, run for at
most `n` iterations from `lo`. -/
def forLoopBrk {σ : Type} (brk : Int → σ → Bool) (body : Int → σ → Option σ) :
    Nat → Int → σ → Option σ
  | 0, _, s => some s
  | n + 1, i, s =>
    if brk i s then some s
    else
      match body i s with
      | none => none
      | some s' => forLoopBrk brk body n (i + 1) s'

/-- The loop `for (int i = lo; i < hi; i++) { if (brk) break; body }`. -/
def forRangeBrk {σ : Type} (lo hi : Int) (brk : Int → σ → Bool)
    (body : Int → σ → Option σ) (s : σ) : Option σ :=
  forLoopBrk brk body (hi - lo).toNat lo s

namespace Image

/-- The method `Image::stamp`, called on `m` with a source `img` that is a
different object.  The stores keep the shape of the receiver, so the loop
bounds `std::min(h_, img.h()+x)`, `std::min(w_, img.w()+y)` and `c()` are the
same at every iteration. -/
def stamp (m img : Image) (x y : Int) : Option Image :=
  forRange x (min m.h (img.h + x)) (fun h d =>
    forRange y (min m.w (img.w + y)) (fun w d =>
      forRangeBrk 0 d.c (fun z _ => decide (z ≥ img.c)) (fun z d =>
        match img.pixel (h - x) (w - y) z with
        | none => none
        | some v => d.storePixel h w z v) d) d) m

/-- The method `Image::addBorder`. -/
def addBorder (m : Image) (h_border w_border : Int) (pxl : Nat) : Option Image :=
  if h_border < 0 ∨ w_border < 0 then some m
  else
    let h2 := h_border * 2
    let w2 := w_border * 2
    match mkFilled (m.h + h2) (m.w + w2) m.c pxl with
    | none => none
    | some image =>
      match image.stamp m h_border w_border with
      | none => none
      | some image => some (swap m image).1

/-- The method `Image::crop`: the returned flag and the receiver after the
call.  `junk` gives the indeterminate bytes of the fresh allocation. -/
def crop (m : Image) (h w x y : Int) (junk : Nat → Nat) : Option (Bool × Image) :=
  match m.empty with
  | none => none
  | some true => some (false, m)
  | some false =>
    if x < 0 ∨ x ≥ m.h then some (false, m)
    else if y < 0 ∨ y ≥ m.w then some (false, m)
    else
      let sx := x - Int.tdiv h 2
      let sy := y - Int.tdiv w 2
      let ex := sx + h
      let ey := sy + w
      let sx := if sx < 0 then 0 else sx
      let sy := if sy < 0 then 0 else sy
      let ex := if ex > m.h then m.h else ex
      let ey := if ey > m.w then m.w else ey
      if sx ≥ ex ∨ sy ≥ ey then some (false, m)
      else
        match mkSized h w m.c junk with
        | none => none
        | some image =>
          match forRange sx ex (fun h im =>
                  forRange sy ey (fun w im =>
                    forRange 0 m.c (fun c im =>
                      match m.pixel h w c with
                      | none => none
                      | some v => im.storePixel (h - sx) (w - sy) c v) im) im) image with
          | none => none
          | some image => some (true, (swap m image).1)

/-- The method `Image::centerCrop`. -/
def centerCrop (m : Image) (h w : Int) (junk : Nat → Nat) : Option (Bool × Image) :=
  let x := Int.tdiv m.h 2
  let y := Int.tdiv m.w 2
  m.crop h w x y junk

end Image

/-- The `h_image` block of `main`: a 100x100x3 image of `0xFF` whose rows
50..99 are set to `0x00` in all three channels. -/
def main_h_image : Option Image :=
  match Image.mkFilled 100 100 3 0xFF with
  | none => none
  | some h_image =>
    forRange 50 100 (fun i d =>
      forRange 0 100 (fun j d =>
        match d.storePixel i j 0 0x00 with
        | none => none
        | some d =>
          match d.storePixel i j 1 0x00 with
          | none => none
          | some d => d.storePixel i j 2 0x00) d) h_image

namespace Image

/-- A non-empty buffer: positive shape and an allocation of exactly
`h * w * c` bytes, which as the extent of an allocation is below `2 ^ 64`. -/
def NonEmpty (m : Image) : Prop :=
  0 < m.h ∧ 0 < m.w ∧ 0 < m.c ∧
    (m.pdata.map fun d => (d.length : Int)) = some (m.h * m.w * m.c) ∧
    m.h * m.w * m.c < 2 ^ 64

instance (m : Image) : Decidable m.NonEmpty := by
  unfold NonEmpty; infer_instance

/-- A well-formed buffer: the empty buffer `(0,0,0)` without storage, or a
non-empty buffer. -/
def WellFormed (m : Image) : Prop :=
  (m.h = 0 ∧ m.w = 0 ∧ m.c = 0 ∧ m.pdata = none) ∨ m.NonEmpty

instance (m : Image) : Decidable m.WellFormed := by
  unfold WellFormed; infer_instance

/-- The coordinate `(x, y, z)` lies in `[0,h) x [0,w) x [0,c)`. -/
def InBounds (m : Image) (x y z : Int) : Prop :=
  0 ≤ x ∧ x < m.h ∧ 0 ≤ y ∧ y < m.w ∧ 0 ≤ z ∧ z < m.c

instance (m : Image) (x y z : Int) : Decidable (m.InBounds x y z) := by
  unfold InBounds; infer_instance

/-- The storage of a buffer is what its constructor allocated: none for the
shape (0,0,0), and for a positive shape exactly `size()` bytes, the product
`h * w * c` modulo `2 ^ 64`. -/
def Sound (m : Image) : Prop :=
  (m.h = 0 ∧ m.w = 0 ∧ m.c = 0 ∧ m.pdata = none) ∨
    (0 < m.h ∧ 0 < m.w ∧ 0 < m.c ∧ (m.pdata.map fun d => (d.length : Int)) = some m.size)

instance (m : Image) : Decidable m.Sound := by
  unfold Sound; infer_instance

/-- Two buffers have the same shape. -/
def SameShape (a b : Image) : Prop := a.h = b.h ∧ a.w = b.w ∧ a.c = b.c

instance (a b : Image) : Decidable (a.SameShape b) := by
  unfold SameShape; infer_instance

/-- The buffer `d` is `d0` repainted on the region `R`: same shape, still
non-empty, the pixels of `R` read `val`, all other pixels read as in `d0`. -/
def Painted (d0 d : Image) (R : Int → Int → Int → Prop) (val : Int → Int → Int → Option Nat) :
    Prop :=
  d.SameShape d0 ∧ d.NonEmpty ∧
    ∀ i j k, (R i j k → d.pixel i j k = val i j k) ∧ (¬ R i j k → d.pixel i j k = d0.pixel i j k)

/-- The buffer `d` has the shape of `d0`, reads `val` on the region `R` and
reads as `d0` elsewhere; nothing is said of its storage. -/
def Repainted (d0 d : Image) (R : Int → Int → Int → Prop)
    (val : Int → Int → Int → Option Nat) : Prop :=
  d.SameShape d0 ∧
    ∀ i j k, (R i j k → d.pixel i j k = val i j k) ∧ (¬ R i j k → d.pixel i j k = d0.pixel i j k)

end Image

/-! ## Further operations of `Image` -/

namespace Image

/-- The method `Image::addPixel`.  `static_cast<uint8_t>(v)` is `v % 256`, and
`+=` on a `uint8_t` stores the sum modulo 256. -/
def addPixel (m : Image) (x y z : Int) (pxl : Nat) : Option Image :=
  match m.pixel x y z with
  | none => none
  | some p =>
    let v : Int := 255 - (p : Int)
    let v : Int := min v (pxl : Int)
    match m.pixel x y z with
    | none => none
    | some q => m.storePixel x y z (((q : Int) + v % 256) % 256).toNat

/-- The method `Image::subPixel`; `-=` on a `uint8_t` stores the difference
modulo 256. -/
def subPixel (m : Image) (x y z : Int) (pxl : Nat) : Option Image :=
  match m.pixel x y z with
  | none => none
  | some p =>
    if p < pxl then m.setPixel x y z 0
    else
      match m.pixel x y z with
      | none => none
      | some q => m.storePixel x y z (((q : Int) - (pxl : Int)) % 256).toNat

/-- The method `Image::layer`. -/
def layer (m : Image) (z : Int) (junk : Nat → Nat) : Option Image :=
  if z < 0 ∨ z ≥ m.c then some mkEmpty
  else
    match mkSized m.h m.w 1 junk with
    | none => none
    | some image =>
      forRange 0 m.h (fun x im =>
        forRange 0 m.w (fun y im =>
          match m.pixel x y z with
          | none => none
          | some v => im.storePixel x y 0 v) im) image

/-- The method `Image::layers`; `junk z` gives the indeterminate bytes of the
allocation made by the call `layer(z)`. -/
def layers (m : Image) (junk : Int → Nat → Nat) : Option (List Image) :=
  forRange 0 m.c (fun z images =>
    match m.layer z (junk z) with
    | none => none
    | some im => some (images ++ [im])) []

/-- The method `Image::addBoxBorder`. -/
def addBoxBorder (m : Image) (border : Int) (pxl : Nat) : Option Image :=
  m.addBorder border border pxl

end Image

/-- The external resampler `::stbir_resize_uint8(in, in_w, in_h, in_stride, out,
out_w, out_h, out_stride, channels)`, taken as a parameter: the byte it leaves
at each index of the output buffer. -/
abbrev Resample :=
  Option (List Nat) → Int → Int → Int → Option (List Nat) → Int → Int → Int → Int → Nat → Nat

namespace Image

/-- A call of the external resampler with `out` as output buffer.  The
resampler reads `in_h` rows of `in_stride` bytes from the storage of `src` and
writes `out_h` rows of `out_stride` bytes to the storage of `out`: with a null
pointer, or an allocation shorter than that, it accesses memory outside the
allocation, a fatal outcome.  Otherwise the bytes of the allocation of `out`
are rewritten in place, its extent is what it was. -/
def resampleInto (rs : Resample) (src : Image) (in_w in_h in_stride : Int) (out : Image)
    (out_w out_h out_stride channels : Int) : Option Image :=
  match src.pdata, out.pdata with
  | some s, some d =>
    if in_h * in_stride ≤ (s.length : Int) ∧ out_h * out_stride ≤ (d.length : Int) then
      let f := rs src.pdata in_w in_h in_stride out.pdata out_w out_h out_stride channels
      some { out with pdata := some ((List.range d.length).map f) }
    else none
  | _, _ => none

/-- The method `Image::resize`: the receiver after the call and the number of
calls of the resampler. -/
def resize (m : Image) (new_h new_w : Int) (rs : Resample) (junk : Nat → Nat) :
    Option (Image × Nat) :=
  if new_h > 0 then
    if new_w > 0 then
      if new_h = m.h ∧ new_w = m.w then some (m, 0)
      else
        match mkSized new_h new_w m.c junk with
        | none => none
        | some image =>
          match resampleInto rs m m.w m.h (m.w * m.c) image new_w new_h (new_w * m.c) m.c with
          | none => none
          | some image => some ((swap m image).1, 1)
    else none
  else none

/-- The method `Image::resizeHeight`. -/
def resizeHeight (m : Image) (new_h : Int) (rs : Resample) (junk : Nat → Nat) :
    Option (Image × Nat) :=
  if new_h > 0 then
    if new_h = m.h then some (m, 0)
    else
      match m.empty with
      | none => none
      | some true => some (m, 0)
      | some false =>
        match mkSized new_h m.w m.c junk with
        | none => none
        | some image =>
          match resampleInto rs m m.w m.h (m.w * m.c) image m.w new_h (m.w * m.c) m.c with
          | none => none
          | some image => some ((swap m image).1, 1)
  else none

/-- The method `Image::resizeWidth`. -/
def resizeWidth (m : Image) (new_w : Int) (rs : Resample) (junk : Nat → Nat) :
    Option (Image × Nat) :=
  if new_w > 0 then
    if new_w = m.w then some (m, 0)
    else
      match m.empty with
      | none => none
      | some true => some (m, 0)
      | some false =>
        match mkSized m.h new_w m.c junk with
        | none => none
        | some image =>
          match resampleInto rs m m.w m.h (m.w * m.c) image new_w m.h (new_w * m.c) m.c with
          | none => none
          | some image => some ((swap m image).1, 1)
  else none

/-- The method `Image::resizeTo`: the returned flag, the target after the call
and the number of calls of the resampler; `target = none` is the null
pointer. -/
def resizeTo (m : Image) (target : Option Image) (rs : Resample) :
    Option (Bool × Option Image × Nat) :=
  match target with
  | none => some (false, none, 0)
  | some t =>
    match t.empty with
    | none => none
    | some true => some (false, some t, 0)
    | some false =>
      let h := t.h
      let w := t.w
      let c := t.c
      if c ≠ m.c then some (false, some t, 0)
      else if t.pdata.isSome then
        match resampleInto rs m m.w m.h (m.w * m.c) t w h (w * c) c with
        | none => none
        | some t => some (true, some t, 1)
      else none

/-- The quotient `a / b` of two `int`s: truncated, and fatal when `b` is 0. -/
def cdiv (a b : Int) : Option Int :=
  if b = 0 then none else some (Int.tdiv a b)

/-- The method `Image::resizeOnSmallerSide`. -/
def resizeOnSmallerSide (m : Image) (new_size : Int) (rs : Resample) (junk : Nat → Nat) :
    Option (Image × Nat) :=
  let w := m.w
  let h := m.h
  if w < h then
    match cdiv (h * new_size) w with
    | none => none
    | some h =>
      let w := new_size
      if h = m.h ∧ w = m.w then some (m, 0) else m.resize h w rs junk
  else
    match cdiv (w * new_size) h with
    | none => none
    | some w =>
      let h := new_size
      if h = m.h ∧ w = m.w then some (m, 0) else m.resize h w rs junk

/-- The method `Image::resizeOnLargerSide`. -/
def resizeOnLargerSide (m : Image) (new_size : Int) (rs : Resample) (junk : Nat → Nat) :
    Option (Image × Nat) :=
  let h := m.h
  let w := m.w
  if w < h then
    match cdiv (w * new_size) h with
    | none => none
    | some w =>
      let h := new_size
      if h = m.h ∧ w = m.w then some (m, 0) else m.resize h w rs junk
  else
    match cdiv (h * new_size) w with
    | none => none
    | some h =>
      let w := new_size
      if h = m.h ∧ w = m.w then some (m, 0) else m.resize h w rs junk

/-- The method `Image::centerCropWithRatio`.  The `float` ratios are rationals;
`scale r n` is the value of `static_cast<int>(r * n)`. -/
def centerCropWithRatio (m : Image) (h_ratio w_ratio : ℚ) (scale : ℚ → Int → Int)
    (junk : Nat → Nat) : Option (Bool × Image) :=
  if h_ratio ≤ 0 then some (false, m)
  else if w_ratio ≤ 0 then some (false, m)
  else
    let h_ratio := if h_ratio > 1 then 1 else h_ratio
    let w_ratio := if w_ratio > 1 then 1 else w_ratio
    let h := scale h_ratio m.h
    let w := scale w_ratio m.w
    if h = m.h ∧ w = m.w then some (true, m)
    else m.centerCrop h w junk

/-- The method `Image::centerSquaredCrop`; `scale r n` is the value of
`static_cast<int>(r * n)`. -/
def centerSquaredCrop (m : Image) (ratio : ℚ) (scale : ℚ → Int → Int) (junk : Nat → Nat) :
    Option (Bool × Image) :=
  if m.w < m.h then
    let w := scale ratio m.w
    let h := w
    m.centerCrop h w junk
  else
    let h := scale ratio m.h
    let w := h
    m.centerCrop h w junk

end Image

/-- The objects of a program, by address. -/
abbrev Store := Nat → Image

/-- The method `Image::swap`, called on the object at `this` with the object
at `image`. -/
def Store.swap (s : Store) (this image : Nat) : Store :=
  if this = image then s
  else fun a => if a = this then s image else if a = image then s this else s a

/-- The method `Image::clear`, called on the object at `this`. -/
def Store.clear (s : Store) (this : Nat) : Store :=
  fun a => if a = this then (s a).clear else s a

/-- The move constructor `Image::Image(Image&& image)`, constructing the
object at `this`. -/
def Store.moveCtor (s : Store) (this image : Nat) : Store :=
  let s : Store := fun a => if a = this then ⟨0, 0, 0, none⟩ else s a
  let s := s.swap this image
  s.clear image

/-- The move assignment `Image::operator=(Image&& image)`, called on the
object at `this`. -/
def Store.moveAssign (s : Store) (this image : Nat) : Store :=
  if this = image then s
  else
    let s := s.swap this image
    s.clear image

/-! ## Constructors, copies, fills and loading -/

namespace Image

/-- A read `pdata_.get()[i]`. -/
def rawGet (m : Image) (i : Nat) : Option Nat :=
  match m.pdata with
  | none => none
  | some d => d[i]?

/-- A store `pdata_.get()[i] = v`. -/
def rawSet (m : Image) (i : Nat) (v : Nat) : Option Image :=
  match m.pdata with
  | none => none
  | some d => if i < d.length then some { m with pdata := some (d.set i v) } else none

/-- The constructor `Image::Image(int h, int w, int c, const std::vector<uint8_t>& data)`. -/
def mkFromVector (h w c : Int) (data : List Nat) (junk : Nat → Nat) : Option Image :=
  if h > 0 ∧ w > 0 ∧ c > 0 then
    let m : Image := ⟨h, w, c, none⟩
    if m.size = data.length then
      let m : Image := { m with pdata := some ((List.range m.size.toNat).map junk) }
      forRange 0 m.size (fun i d =>
        match data[i.toNat]? with
        | none => none
        | some v => d.rawSet i.toNat v) m
    else none
  else none

/-- The constructor `Image::Image(int h, int w, int c, const uint8_t* pdata)`;
`pdata = none` is the null pointer, `some bytes` the memory it points to. -/
def mkFromPointer (h w c : Int) (pdata : Option (List Nat)) (junk : Nat → Nat) : Option Image :=
  if h > 0 ∧ w > 0 ∧ c > 0 then
    match pdata with
    | none => none
    | some data =>
      let m : Image := ⟨h, w, c, none⟩
      let m : Image := { m with pdata := some ((List.range m.size.toNat).map junk) }
      forRange 0 m.size (fun i d =>
        match data[i.toNat]? with
        | none => none
        | some v => d.rawSet i.toNat v) m
  else none

/-- The constructor `Image::Image(int h, int w, int c, std::shared_ptr<uint8_t> pdata)`. -/
def mkShared (h w c : Int) (pdata : Option (List Nat)) : Option Image :=
  if h > 0 ∧ w > 0 ∧ c > 0 then
    if pdata.isSome then some ⟨h, w, c, pdata⟩ else none
  else none

/-- The copy constructor `Image::Image(const Image& image)`. -/
def mkCopy (image : Image) (junk : Nat → Nat) : Option Image :=
  let m : Image := ⟨image.h, image.w, image.c, none⟩
  match image.empty with
  | none => none
  | some true => some m
  | some false =>
    let m : Image := { m with pdata := some ((List.range m.size.toNat).map junk) }
    forRange 0 m.size (fun i d =>
      match image.rawGet i.toNat with
      | none => none
      | some v => d.rawSet i.toNat v) m

/-- The method `Image::copy`. -/
def copy (m : Image) (junk : Nat → Nat) : Option Image :=
  mkCopy m junk

/-- The copy assignment `Image::operator=(const Image& image)` on an object
`m` distinct from `image`: the receiver after the call. -/
def copyAssign (m image : Image) (junk : Nat → Nat) : Option Image :=
  match image.empty with
  | none => none
  | some true => some m.clear
  | some false =>
    let m : Image := { m with h := image.h, w := image.w, c := image.c }
    match image.empty with
    | none => none
    | some true => some m
    | some false =>
      let m : Image := { m with pdata := some ((List.range m.size.toNat).map junk) }
      forRange 0 m.size (fun i d =>
        match image.rawGet i.toNat with
        | none => none
        | some v => d.rawSet i.toNat v) m

/-- The method `Image::setWhite`. -/
def setWhite (m : Image) : Option Image :=
  forRange 0 m.size (fun i d => d.rawSet i.toNat 0xFF) m

/-- The method `Image::setBlack`. -/
def setBlack (m : Image) : Option Image :=
  forRange 0 m.size (fun i d => d.rawSet i.toNat 0x0) m

end Image

/-- What a call of the external decoder (`::stbi_load`,
`::stbi_load_from_memory`) hands back: the returned pointer (`none` is null)
and the values written to `w`, `h` and `c`. -/
structure Decoded where
  mem : Option (List Nat)
  w : Int
  h : Int
  c : Int

/-- The buffer handed back by the decoder, if any, holds `h * w * n` bytes:
the contract of the decoder for `n` requested channels.  As the extent of an
allocation that count is below `2 ^ 64`. -/
def Decoded.Fits (dec : Decoded) (n : Int) : Prop :=
  dec.mem = none ∨
    ((dec.mem.map fun d => (d.length : Int)) = some (dec.h * dec.w * n) ∧
      dec.h * dec.w * n < 2 ^ 64)

instance (dec : Decoded) (n : Int) : Decidable (dec.Fits n) := by
  unfold Decoded.Fits; infer_instance

namespace Image

/-- The body shared by the three overloads of `Image::load`, after the call of
the decoder: the returned flag and the receiver after the call. -/
def load (m : Image) (dec : Decoded) (num_channel : Int) : Option (Bool × Image) :=
  match dec.mem with
  | none => some (false, m)
  | some _ =>
    if dec.h ≤ 0 then some (false, m)
    else if dec.w ≤ 0 then some (false, m)
    else if dec.c ≤ 0 then some (false, m)
    else
      let c := if num_channel ≠ dec.c then num_channel else dec.c
      match mkShared dec.h dec.w c dec.mem with
      | none => none
      | some image => some (true, (swap m image).1)

/-- The overload `Image::load(const std::vector<uint8_t>& raw, int num_channel)`. -/
def loadVector (m : Image) (raw : List Nat) (dec : Decoded) (num_channel : Int) :
    Option (Bool × Image) :=
  if raw.isEmpty then none else m.load dec num_channel

/-- The overload `Image::load(const uint8_t* raw, size_t size, int num_channel)`. -/
def loadPointer (m : Image) (raw : Option (List Nat)) (dec : Decoded) (num_channel : Int) :
    Option (Bool × Image) :=
  if raw.isSome then m.load dec num_channel else none

/-- The constructor `Image::Image(const std::string& filename)`. -/
def mkFromFile (dec : Decoded) : Option Image :=
  match mkEmpty.load dec 3 with
  | none => none
  | some r => some r.2

end Image

/-- The constructors and public operations of `Image`, with their arguments. -/
inductive Op where
  | ctorDefault
  | ctorSized (h w c : Int) (junk : Nat → Nat)
  | ctorFilled (h w c : Int) (pxl : Nat)
  | ctorVector (h w c : Int) (data : List Nat) (junk : Nat → Nat)
  | ctorPointer (h w c : Int) (pdata : Option (List Nat)) (junk : Nat → Nat)
  | ctorFile (dec : Decoded)
  | ctorCopy (image : Image) (junk : Nat → Nat)
  | ctorMove (image : Image)
  | assignCopy (m image : Image) (junk : Nat → Nat)
  | assignMove (m image : Image)
  | clear (m : Image)
  | swap (m image : Image)
  | copy (m : Image) (junk : Nat → Nat)
  | storePixel (m : Image) (x y z : Int) (pxl : Nat)
  | setPixel (m : Image) (x y z : Int) (pxl : Nat)
  | addPixel (m : Image) (x y z : Int) (pxl : Nat)
  | subPixel (m : Image) (x y z : Int) (pxl : Nat)
  | setWhite (m : Image)
  | setBlack (m : Image)
  | resize (m : Image) (new_h new_w : Int) (rs : Resample) (junk : Nat → Nat)
  | resizeHeight (m : Image) (new_h : Int) (rs : Resample) (junk : Nat → Nat)
  | resizeWidth (m : Image) (new_w : Int) (rs : Resample) (junk : Nat → Nat)
  | resizeTo (m target : Image) (rs : Resample)
  | resizeOnSmallerSide (m : Image) (new_size : Int) (rs : Resample) (junk : Nat → Nat)
  | resizeOnLargerSide (m : Image) (new_size : Int) (rs : Resample) (junk : Nat → Nat)
  | layer (m : Image) (z : Int) (junk : Nat → Nat)
  | layers (m : Image) (junk : Int → Nat → Nat)
  | stamp (m img : Image) (x y : Int)
  | addBorder (m : Image) (h_border w_border : Int) (pxl : Nat)
  | addBoxBorder (m : Image) (border : Int) (pxl : Nat)
  | crop (m : Image) (h w x y : Int) (junk : Nat → Nat)
  | centerCrop (m : Image) (h w : Int) (junk : Nat → Nat)
  | centerCropWithRatio (m : Image) (h_ratio w_ratio : ℚ) (scale : ℚ → Int → Int)
      (junk : Nat → Nat)
  | centerSquaredCrop (m : Image) (ratio : ℚ) (scale : ℚ → Int → Int) (junk : Nat → Nat)
  | loadFile (m : Image) (dec : Decoded) (num_channel : Int)
  | loadVector (m : Image) (raw : List Nat) (dec : Decoded) (num_channel : Int)
  | loadPointer (m : Image) (raw : Option (List Nat)) (dec : Decoded) (num_channel : Int)

/-- The inputs of an operation are well-formed: every buffer it is given is
well-formed, and a buffer handed back by the decoder for `num_channel`
requested channels holds `h * w * num_channel` bytes. -/
def Op.InputsOK : Op → Prop
  | .ctorFile dec => dec.Fits 3
  | .ctorCopy image _ => image.WellFormed
  | .ctorMove image => image.WellFormed
  | .assignCopy m image _ => m.WellFormed ∧ image.WellFormed
  | .assignMove m image => m.WellFormed ∧ image.WellFormed
  | .clear m => m.WellFormed
  | .swap m image => m.WellFormed ∧ image.WellFormed
  | .copy m _ => m.WellFormed
  | .storePixel m _ _ _ _ => m.WellFormed
  | .setPixel m _ _ _ _ => m.WellFormed
  | .addPixel m _ _ _ _ => m.WellFormed
  | .subPixel m _ _ _ _ => m.WellFormed
  | .setWhite m => m.WellFormed
  | .setBlack m => m.WellFormed
  | .resize m _ _ _ _ => m.WellFormed
  | .resizeHeight m _ _ _ => m.WellFormed
  | .resizeWidth m _ _ _ => m.WellFormed
  | .resizeTo m target _ => m.WellFormed ∧ target.WellFormed
  | .resizeOnSmallerSide m _ _ _ => m.WellFormed
  | .resizeOnLargerSide m _ _ _ => m.WellFormed
  | .layer m _ _ => m.WellFormed
  | .layers m _ => m.WellFormed
  | .stamp m img _ _ => m.WellFormed ∧ img.WellFormed
  | .addBorder m _ _ _ => m.WellFormed
  | .addBoxBorder m _ _ => m.WellFormed
  | .crop m _ _ _ _ _ => m.WellFormed
  | .centerCrop m _ _ _ => m.WellFormed
  | .centerCropWithRatio m _ _ _ _ => m.WellFormed
  | .centerSquaredCrop m _ _ _ => m.WellFormed
  | .loadFile m dec n => m.WellFormed ∧ dec.Fits n
  | .loadVector m _ dec n => m.WellFormed ∧ dec.Fits n
  | .loadPointer m _ dec n => m.WellFormed ∧ dec.Fits n
  | _ => True

/-- The buffers an operation leaves behind when it returns normally: the
constructed object, the receiver and the other objects it touched, and the
buffers it returns. -/
def Op.run : Op → Option (List Image)
  | .ctorDefault => some [Image.mkEmpty]
  | .ctorSized h w c junk => (Image.mkSized h w c junk).map fun r => [r]
  | .ctorFilled h w c pxl => (Image.mkFilled h w c pxl).map fun r => [r]
  | .ctorVector h w c data junk => (Image.mkFromVector h w c data junk).map fun r => [r]
  | .ctorPointer h w c pdata junk => (Image.mkFromPointer h w c pdata junk).map fun r => [r]
  | .ctorFile dec => (Image.mkFromFile dec).map fun r => [r]
  | .ctorCopy image junk => (Image.mkCopy image junk).map fun r => [r, image]
  | .ctorMove image =>
    let s := Store.moveCtor (fun a => if a = 1 then image else Image.mkEmpty) 0 1
    some [s 0, s 1]
  | .assignCopy m image junk => (Image.copyAssign m image junk).map fun r => [r, image]
  | .assignMove m image =>
    let s := Store.moveAssign (fun a => if a = 1 then image else m) 0 1
    some [s 0, s 1]
  | .clear m => some [m.clear]
  | .swap m image =>
    let s := Store.swap (fun a => if a = 1 then image else m) 0 1
    some [s 0, s 1]
  | .copy m junk => (m.copy junk).map fun r => [r, m]
  | .storePixel m x y z pxl => (m.storePixel x y z pxl).map fun r => [r]
  | .setPixel m x y z pxl => (m.setPixel x y z pxl).map fun r => [r]
  | .addPixel m x y z pxl => (m.addPixel x y z pxl).map fun r => [r]
  | .subPixel m x y z pxl => (m.subPixel x y z pxl).map fun r => [r]
  | .setWhite m => m.setWhite.map fun r => [r]
  | .setBlack m => m.setBlack.map fun r => [r]
  | .resize m new_h new_w rs junk => (m.resize new_h new_w rs junk).map fun r => [r.1]
  | .resizeHeight m new_h rs junk => (m.resizeHeight new_h rs junk).map fun r => [r.1]
  | .resizeWidth m new_w rs junk => (m.resizeWidth new_w rs junk).map fun r => [r.1]
  | .resizeTo m target rs =>
    (m.resizeTo (some target) rs).map fun r => m :: r.2.1.toList
  | .resizeOnSmallerSide m n rs junk => (m.resizeOnSmallerSide n rs junk).map fun r => [r.1]
  | .resizeOnLargerSide m n rs junk => (m.resizeOnLargerSide n rs junk).map fun r => [r.1]
  | .layer m z junk => (m.layer z junk).map fun r => [r, m]
  | .layers m junk => (m.layers junk).map fun l => m :: l
  | .stamp m img x y => (m.stamp img x y).map fun r => [r, img]
  | .addBorder m hb wb pxl => (m.addBorder hb wb pxl).map fun r => [r]
  | .addBoxBorder m b pxl => (m.addBoxBorder b pxl).map fun r => [r]
  | .crop m h w x y junk => (m.crop h w x y junk).map fun r => [r.2]
  | .centerCrop m h w junk => (m.centerCrop h w junk).map fun r => [r.2]
  | .centerCropWithRatio m hr wr scale junk =>
    (m.centerCropWithRatio hr wr scale junk).map fun r => [r.2]
  | .centerSquaredCrop m ratio scale junk =>
    (m.centerSquaredCrop ratio scale junk).map fun r => [r.2]
  | .loadFile m dec n => (m.load dec n).map fun r => [r.2]
  | .loadVector m raw dec n => (m.loadVector raw dec n).map fun r => [r.2]
  | .loadPointer m raw dec n => (m.loadPointer raw dec n).map fun r => [r.2]

namespace Image

/-- The method `Image::aspectRatio`.  The returned `float` is taken as the exact
ratio: the rounding of `static_cast<float>` and of the division to `float` is
not modelled. -/
def aspectRatio (m : Image) : ℚ :=
  if m.w < m.h ∧ m.w > 0 then (m.h : ℚ) / (m.w : ℚ)
  else if m.h < m.w ∧ m.h > 0 then (m.w : ℚ) / (m.h : ℚ)
  else 0

end Image

/-! ## Addressing -/

namespace Image

theorem pos_bound {h w c x y z : Int} (hx0 : 0 ≤ x) (hx : x < h) (hy0 : 0 ≤ y) (hy : y < w)
    (hz0 : 0 ≤ z) (hz : z < c) :
    0 ≤ z + y * c + x * c * w ∧ z + y * c + x * c * w < h * w * c := by
  have hc : 0 < c := by omega
  have hw : 0 < w := by omega
  have h1 : 0 ≤ y * c := Int.mul_nonneg hy0 (by omega)
  have h2 : 0 ≤ x * c * w := Int.mul_nonneg (Int.mul_nonneg hx0 (by omega)) (by omega)
  have h3 : (y + 1) * c ≤ w * c := Int.mul_le_mul_of_nonneg_right (by omega) (by omega)
  have h4 : (x + 1) * (w * c) ≤ h * (w * c) :=
    Int.mul_le_mul_of_nonneg_right (by omega) (Int.mul_nonneg (by omega) (by omega))
  constructor
  · omega
  · nlinarith

theorem lin_inj {c k p k' p' : Int} (hk0 : 0 ≤ k) (hk : k < c) (hk0' : 0 ≤ k') (hk' : k' < c)
    (e : k + p * c = k' + p' * c) : k = k' ∧ p = p' := by
  have e1 : (k + p * c) % c = (k' + p' * c) % c := by rw [e]
  rw [Int.add_mul_emod_self, Int.add_mul_emod_self, Int.emod_eq_of_lt hk0 hk,
    Int.emod_eq_of_lt hk0' hk'] at e1
  subst e1
  have e2 : p * c = p' * c := by omega
  have hc : c ≠ 0 := by omega
  exact ⟨rfl, Int.eq_of_mul_eq_mul_right hc e2⟩

theorem pos_inj {w c x y z x' y' z' : Int} (hy0 : 0 ≤ y) (hy : y < w)
    (hz0 : 0 ≤ z) (hz : z < c) (hy0' : 0 ≤ y') (hy' : y' < w)
    (hz0' : 0 ≤ z') (hz' : z' < c)
    (e : z + y * c + x * c * w = z' + y' * c + x' * c * w) : x = x' ∧ y = y' ∧ z = z' := by
  have e1 : z + (y + x * w) * c = z' + (y' + x' * w) * c := by linarith
  obtain ⟨ez, e2⟩ := lin_inj hz0 hz hz0' hz' e1
  obtain ⟨ey, ex⟩ := lin_inj hy0 hy hy0' hy' e2
  exact ⟨ex, ey, ez⟩

theorem NonEmpty.data {m : Image} (hm : m.NonEmpty) :
    ∃ d, m.pdata = some d ∧ (d.length : Int) = m.h * m.w * m.c := by
  obtain ⟨_, _, _, hd, _⟩ := hm
  cases hp : m.pdata with
  | none => simp [hp] at hd
  | some d => exact ⟨d, rfl, by simpa [hp] using hd⟩

theorem NonEmpty.prod_pos {m : Image} (hm : m.NonEmpty) : 0 < m.h * m.w * m.c := by
  obtain ⟨h1, h2, h3, _⟩ := hm
  exact Int.mul_pos (Int.mul_pos h1 h2) h3

/-- The byte count of a non-empty buffer does not wrap. -/
theorem NonEmpty.size_eq {m : Image} (hm : m.NonEmpty) : m.size = m.h * m.w * m.c := by
  have hp := hm.prod_pos
  unfold size
  exact Int.emod_eq_of_lt (by omega) hm.2.2.2.2

theorem NonEmpty.size_pos {m : Image} (hm : m.NonEmpty) : 0 < m.size := by
  rw [hm.size_eq]
  exact hm.prod_pos

/-- A byte count below `2 ^ 64` is not changed by the wrap of `size_t`. -/
theorem size_mk {h w c : Int} (p : Option (List Nat)) (hh : 0 < h) (hw : 0 < w) (hc : 0 < c)
    (hb : h * w * c < 2 ^ 64) : size ⟨h, w, c, p⟩ = h * w * c := by
  have hp : 0 < h * w * c := Int.mul_pos (Int.mul_pos hh hw) hc
  show (h * w * c) % 2 ^ 64 = h * w * c
  exact Int.emod_eq_of_lt (by omega) hb

/-- One channel of a non-empty buffer has a byte count below `2 ^ 64`. -/
theorem fits_one {m : Image} (hm : m.NonEmpty) : m.h * m.w * 1 < 2 ^ 64 := by
  have h1 : 0 < m.h * m.w := Int.mul_pos hm.1 hm.2.1
  have h2 : m.h * m.w * 1 ≤ m.h * m.w * m.c :=
    Int.mul_le_mul_of_nonneg_left (by have := hm.2.2.1; omega) (by omega)
  have h3 := hm.2.2.2.2
  omega

/-- A window inside a buffer has a byte count below `2 ^ 64`. -/
theorem fits_of_le {h w c H W : Int} (hh : 0 < h) (hw : 0 < w) (hc : 0 < c) (hH : h ≤ H)
    (hW : w ≤ W) (hb : H * W * c < 2 ^ 64) : h * w * c < 2 ^ 64 := by
  have h1 : h * w ≤ H * W := Int.mul_le_mul hH hW (by omega) (by omega)
  have h2 : h * w * c ≤ H * W * c := Int.mul_le_mul_of_nonneg_right h1 (by omega)
  omega

theorem NonEmpty.empty_eq {m : Image} (hm : m.NonEmpty) : m.empty = some false := by
  have := hm.size_pos
  unfold empty
  rw [if_neg (by omega)]

theorem check_eq_true {m : Image} {x y z : Int} (hb : m.InBounds x y z) : m.check x y z = true := by
  obtain ⟨h1, h2, h3, h4, h5, h6⟩ := hb
  simp [check, h1, h2, h3, h4, h5, h6]

theorem check_eq_false {m : Image} {x y z : Int} (hb : ¬ m.InBounds x y z) :
    m.check x y z = false := by
  unfold InBounds at hb
  unfold check
  split_ifs <;> first | rfl | omega

theorem offset_eq {m : Image} (hm : m.NonEmpty) {x y z : Int} (hb : m.InBounds x y z) :
    m.offset x y z = some (z + y * m.c + x * m.c * m.w).toNat := by
  obtain ⟨h1, h2, h3, h4, h5, h6⟩ := hb
  have hp := pos_bound h1 h2 h3 h4 h5 h6
  unfold offset
  rw [check_eq_true ⟨h1, h2, h3, h4, h5, h6⟩, hm.empty_eq]
  simp only [if_true]
  rw [if_pos (by rw [hm.size_eq]; exact hp.2)]

theorem offset_none {m : Image} {x y z : Int} (hb : ¬ m.InBounds x y z) :
    m.offset x y z = none := by
  unfold offset
  rw [check_eq_false hb]
  simp

end Image

namespace Image

theorem SameShape.inBounds_iff {a b : Image} (hs : a.SameShape b) (x y z : Int) :
    a.InBounds x y z ↔ b.InBounds x y z := by
  obtain ⟨h1, h2, h3⟩ := hs
  unfold InBounds
  rw [h1, h2, h3]

theorem pixel_none {m : Image} {x y z : Int} (hb : ¬ m.InBounds x y z) : m.pixel x y z = none := by
  unfold pixel
  rw [offset_none hb]

theorem pixel_eq {m : Image} (hm : m.NonEmpty) {x y z : Int} (hb : m.InBounds x y z) :
    ∃ d, m.pdata = some d ∧ m.pixel x y z = d[(z + y * m.c + x * m.c * m.w).toNat]? ∧
      (z + y * m.c + x * m.c * m.w).toNat < d.length := by
  obtain ⟨d, hd, hl⟩ := hm.data
  obtain ⟨h1, h2, h3, h4, h5, h6⟩ := hb
  have hp := pos_bound h1 h2 h3 h4 h5 h6
  refine ⟨d, hd, ?_, by omega⟩
  unfold pixel
  rw [offset_eq hm ⟨h1, h2, h3, h4, h5, h6⟩, hd]

theorem pixel_isSome {m : Image} (hm : m.NonEmpty) {x y z : Int} (hb : m.InBounds x y z) :
    ∃ v, m.pixel x y z = some v := by
  obtain ⟨d, _, hp, hl⟩ := pixel_eq hm hb
  exact ⟨d[(z + y * m.c + x * m.c * m.w).toNat], by rw [hp, List.getElem?_eq_getElem hl]⟩

/-- What a store at an in-bounds coordinate of a non-empty buffer does. -/
theorem storePixel_spec {m : Image} (hm : m.NonEmpty) {x y z : Int} (hb : m.InBounds x y z)
    (v : Nat) :
    ∃ m', m.storePixel x y z v = some m' ∧ m'.SameShape m ∧ m'.NonEmpty ∧
      m'.pixel x y z = some v ∧
      ∀ i j k, (i ≠ x ∨ j ≠ y ∨ k ≠ z) → m'.pixel i j k = m.pixel i j k := by
  obtain ⟨d, hd, hl⟩ := hm.data
  have hb' := hb
  obtain ⟨h1, h2, h3, h4, h5, h6⟩ := hb'
  have hp := pos_bound h1 h2 h3 h4 h5 h6
  have hlt : (z + y * m.c + x * m.c * m.w).toNat < d.length := by omega
  have hst : m.storePixel x y z v =
      some { m with pdata := some (d.set (z + y * m.c + x * m.c * m.w).toNat v) } := by
    unfold storePixel
    rw [offset_eq hm hb, hd]
    simp only []
    rw [if_pos hlt]
  have hs : SameShape { m with pdata := some (d.set (z + y * m.c + x * m.c * m.w).toNat v) } m :=
    ⟨rfl, rfl, rfl⟩
  have hne : NonEmpty { m with pdata := some (d.set (z + y * m.c + x * m.c * m.w).toNat v) } := by
    obtain ⟨a1, a2, a3, _, a5⟩ := hm
    refine ⟨a1, a2, a3, ?_, a5⟩
    simp only [Option.map_some', List.length_set]
    rw [hl]
  refine ⟨_, hst, hs, hne, ?_, ?_⟩
  · obtain ⟨d', hd', hp', _⟩ := pixel_eq hne ((hs.inBounds_iff x y z).2 hb)
    simp only [Option.some.injEq] at hd'
    subst hd'
    rw [hp']
    simp only []
    rw [List.getElem?_set, if_pos rfl, if_pos hlt]
  · intro i j k hne'
    by_cases hb2 : m.InBounds i j k
    · obtain ⟨d', hd', hp', _⟩ := pixel_eq hne ((hs.inBounds_iff i j k).2 hb2)
      obtain ⟨d'', hd'', hp'', _⟩ := pixel_eq hm hb2
      simp only [Option.some.injEq] at hd'
      subst hd'
      rw [hd] at hd''
      simp only [Option.some.injEq] at hd''
      subst hd''
      rw [hp', hp'']
      simp only []
      apply List.getElem?_set_ne
      intro e
      obtain ⟨b1, b2, b3, b4, b5, b6⟩ := hb2
      have hq := pos_bound b1 b2 b3 b4 b5 b6
      have e' : z + y * m.c + x * m.c * m.w = k + j * m.c + i * m.c * m.w := by omega
      obtain ⟨e1, e2, e3⟩ := pos_inj h3 h4 h5 h6 b3 b4 b5 b6 e'
      omega
    · rw [pixel_none hb2, pixel_none (fun hh => hb2 ((hs.inBounds_iff i j k).1 hh))]

/-- What a successful `offset` says, on any buffer. -/
theorem offset_some {m : Image} {x y z : Int} {pos : Nat} (h : m.offset x y z = some pos) :
    m.InBounds x y z ∧ m.empty = some false ∧
      pos = (z + y * m.c + x * m.c * m.w).toNat := by
  by_cases hb : m.InBounds x y z
  · unfold offset at h
    rw [check_eq_true hb] at h
    simp only [if_true] at h
    cases he : m.empty with
    | none => rw [he] at h; simp at h
    | some b =>
      rw [he] at h
      cases b with
      | true => simp at h
      | false =>
        simp only [] at h
        split_ifs at h with h1
        simp only [Option.some.injEq] at h
        exact ⟨hb, rfl, h.symm⟩
  · rw [offset_none hb] at h
    simp at h

/-- The offsets of a buffer depend on its shape and on whether it has storage. -/
theorem offset_congr {a b : Image} (hs : a.SameShape b) (hp : a.pdata.isNone = b.pdata.isNone)
    (x y z : Int) : a.offset x y z = b.offset x y z := by
  obtain ⟨s1, s2, s3⟩ := hs
  unfold offset check empty size
  rw [s1, s2, s3, hp]

/-- What a successful store does, on any buffer: the written coordinate reads
the stored byte, every other coordinate reads as before, the shape is kept. -/
theorem storePixel_frame {m m' : Image} {x y z : Int} {v : Nat}
    (h : m.storePixel x y z v = some m') :
    m'.SameShape m ∧ m.InBounds x y z ∧ m'.pixel x y z = some v ∧
      ∀ i j k, (i ≠ x ∨ j ≠ y ∨ k ≠ z) → m'.pixel i j k = m.pixel i j k := by
  unfold storePixel at h
  cases ho : m.offset x y z with
  | none => rw [ho] at h; simp at h
  | some pos =>
    rw [ho] at h
    cases hd : m.pdata with
    | none => rw [hd] at h; simp at h
    | some d =>
      rw [hd] at h
      simp only [] at h
      split_ifs at h with hlt
      simp only [Option.some.injEq] at h
      subst h
      obtain ⟨hin, _, hpos⟩ := offset_some ho
      have hs : SameShape { m with pdata := some (d.set pos v) } m := ⟨rfl, rfl, rfl⟩
      have hoff : ∀ i j k, offset { m with pdata := some (d.set pos v) } i j k = m.offset i j k :=
        fun i j k => offset_congr hs (by rw [hd]; rfl) i j k
      refine ⟨hs, hin, ?_, ?_⟩
      · unfold pixel
        rw [hoff, ho]
        simp only []
        rw [List.getElem?_set, if_pos rfl, if_pos hlt]
      · intro i j k hne
        unfold pixel
        rw [hoff]
        cases ho2 : m.offset i j k with
        | none => rfl
        | some pos2 =>
          simp only [hd]
          apply List.getElem?_set_ne
          intro e
          obtain ⟨hin2, _, hpos2⟩ := offset_some ho2
          obtain ⟨a1, a2, a3, a4, a5, a6⟩ := hin
          obtain ⟨b1, b2, b3, b4, b5, b6⟩ := hin2
          have p1 := pos_bound a1 a2 a3 a4 a5 a6
          have p2 := pos_bound b1 b2 b3 b4 b5 b6
          have e' : z + y * m.c + x * m.c * m.w = k + j * m.c + i * m.c * m.w := by omega
          obtain ⟨e1, e2, e3⟩ := pos_inj a3 a4 a5 a6 b3 b4 b5 b6 e'
          omega

end Image

/-! ## Loops -/

theorem forLoop_inv {σ : Type} (Inv : Int → σ → Prop) (body : Int → σ → Option σ) :
    ∀ (n : Nat) (lo : Int) (s : σ), Inv lo s →
      (∀ i t, lo ≤ i → i < lo + n → Inv i t → ∃ t', body i t = some t' ∧ Inv (i + 1) t') →
      ∃ s', forLoop body n lo s = some s' ∧ Inv (lo + n) s' := by
  intro n
  induction n with
  | zero =>
    intro lo s h0 _
    exact ⟨s, rfl, by simpa using h0⟩
  | succ n ih =>
    intro lo s h0 hstep
    obtain ⟨t, ht, hInv⟩ := hstep lo s (le_refl _) (by push_cast; omega) h0
    obtain ⟨s', hs', hInv'⟩ := ih (lo + 1) t hInv (fun i u h1 h2 hu =>
      hstep i u (by omega) (by push_cast; omega) hu)
    refine ⟨s', ?_, ?_⟩
    · simp only [forLoop, ht, hs']
    · have e : lo + ((n + 1 : Nat) : Int) = lo + 1 + (n : Int) := by push_cast; omega
      rw [e]; exact hInv'

/-- Invariant rule for `for (int i = lo; i < hi; i++)` with `lo ≤ hi`. -/
theorem forRange_inv {σ : Type} (Inv : Int → σ → Prop) (body : Int → σ → Option σ)
    (lo hi : Int) (s : σ) (hle : lo ≤ hi) (h0 : Inv lo s)
    (hstep : ∀ i t, lo ≤ i → i < hi → Inv i t → ∃ t', body i t = some t' ∧ Inv (i + 1) t') :
    ∃ s', forRange lo hi body s = some s' ∧ Inv hi s' := by
  have e : lo + (((hi - lo).toNat : Nat) : Int) = hi := by
    rw [Int.toNat_of_nonneg (by omega)]; omega
  obtain ⟨s', hs', hInv⟩ := forLoop_inv Inv body (hi - lo).toNat lo s h0
    (fun i t h1 h2 ht => hstep i t h1 (by omega) ht)
  exact ⟨s', hs', by rw [e] at hInv; exact hInv⟩

/-- A loop whose range is empty does nothing. -/
theorem forRange_empty {σ : Type} (body : Int → σ → Option σ) (lo hi : Int) (s : σ)
    (hle : hi ≤ lo) : forRange lo hi body s = some s := by
  unfold forRange
  have e : (hi - lo).toNat = 0 := by omega
  rw [e]; rfl

theorem forLoopBrk_inv {σ : Type} (Inv : Int → σ → Prop) (brk : Int → σ → Bool)
    (body : Int → σ → Option σ) (stop : Int)
    (hbrk : ∀ i t, brk i t = decide (i ≥ stop)) :
    ∀ (n : Nat) (lo : Int) (s : σ), Inv lo s → lo ≤ stop →
      (∀ i t, lo ≤ i → i < lo + n → i < stop → Inv i t →
        ∃ t', body i t = some t' ∧ Inv (i + 1) t') →
      ∃ s', forLoopBrk brk body n lo s = some s' ∧ Inv (min (lo + n) stop) s' := by
  intro n
  induction n with
  | zero =>
    intro lo s h0 hls _
    refine ⟨s, rfl, ?_⟩
    have e : min (lo + ((0 : Nat) : Int)) stop = lo := by simp; omega
    rw [e]; exact h0
  | succ n ih =>
    intro lo s h0 hls hstep
    by_cases hst : lo ≥ stop
    · refine ⟨s, ?_, ?_⟩
      · simp only [forLoopBrk, hbrk, decide_eq_true hst, if_true]
      · have e : min (lo + ((n + 1 : Nat) : Int)) stop = lo := by
          push_cast; omega
        rw [e]; exact h0
    · obtain ⟨t, ht, hInv⟩ := hstep lo s (le_refl _) (by push_cast; omega) (by omega) h0
      obtain ⟨s', hs', hInv'⟩ := ih (lo + 1) t hInv (by omega) (fun i u h1 h2 h3 hu =>
        hstep i u (by omega) (by push_cast; omega) h3 hu)
      refine ⟨s', ?_, ?_⟩
      · have hd : decide (lo ≥ stop) = false := decide_eq_false hst
        simp only [forLoopBrk, hbrk, hd, ht, hs']
        simp
      · have e : min (lo + ((n + 1 : Nat) : Int)) stop = min (lo + 1 + (n : Int)) stop := by
          push_cast; omega
        rw [e]; exact hInv'

/-- Invariant rule for `for (int i = lo; i < hi; i++) { if (i >= stop) break; body }`. -/
theorem forRangeBrk_inv {σ : Type} (Inv : Int → σ → Prop) (brk : Int → σ → Bool)
    (body : Int → σ → Option σ) (lo hi stop : Int) (s : σ)
    (hbrk : ∀ i t, brk i t = decide (i ≥ stop)) (hle : lo ≤ hi) (hls : lo ≤ stop)
    (h0 : Inv lo s)
    (hstep : ∀ i t, lo ≤ i → i < hi → i < stop → Inv i t →
      ∃ t', body i t = some t' ∧ Inv (i + 1) t') :
    ∃ s', forRangeBrk lo hi brk body s = some s' ∧ Inv (min hi stop) s' := by
  have e : lo + (((hi - lo).toNat : Nat) : Int) = hi := by
    rw [Int.toNat_of_nonneg (by omega)]; omega
  obtain ⟨s', hs', hInv⟩ := forLoopBrk_inv Inv brk body stop hbrk (hi - lo).toNat lo s h0 hls
    (fun i t h1 h2 h3 ht => hstep i t h1 (by omega) h3 ht)
  exact ⟨s', hs', by rw [e] at hInv; exact hInv⟩

theorem forRange_inv_max {σ : Type} (Inv : Int → σ → Prop) (body : Int → σ → Option σ)
    (lo hi : Int) (s : σ) (h0 : Inv lo s)
    (hstep : ∀ i t, lo ≤ i → i < hi → Inv i t → ∃ t', body i t = some t' ∧ Inv (i + 1) t') :
    ∃ s', forRange lo hi body s = some s' ∧ Inv (max lo hi) s' := by
  by_cases hle : lo ≤ hi
  · rw [max_eq_right hle]
    exact forRange_inv Inv body lo hi s hle h0 hstep
  · have hle' : hi ≤ lo := by omega
    rw [max_eq_left hle']
    exact ⟨s, forRange_empty body lo hi s hle', h0⟩

/-- Invariant rule with a postcondition, for any `lo`, `hi`. -/
theorem forRange_rule {σ : Type} (Inv : Int → σ → Prop) (body : Int → σ → Option σ)
    (lo hi : Int) (s : σ) (Q : σ → Prop) (h0 : Inv lo s)
    (hstep : ∀ i t, lo ≤ i → i < hi → Inv i t → ∃ t', body i t = some t' ∧ Inv (i + 1) t')
    (hq : ∀ s', Inv (max lo hi) s' → Q s') :
    ∃ s', forRange lo hi body s = some s' ∧ Q s' := by
  obtain ⟨s', h1, h2⟩ := forRange_inv_max Inv body lo hi s h0 hstep
  exact ⟨s', h1, hq s' h2⟩

/-- Invariant rule with a postcondition for the loop with a `break`. -/
theorem forRangeBrk_rule {σ : Type} (Inv : Int → σ → Prop) (brk : Int → σ → Bool)
    (body : Int → σ → Option σ) (lo hi stop : Int) (s : σ) (Q : σ → Prop)
    (hbrk : ∀ i t, brk i t = decide (i ≥ stop)) (hle : lo ≤ hi) (hls : lo ≤ stop)
    (h0 : Inv lo s)
    (hstep : ∀ i t, lo ≤ i → i < hi → i < stop → Inv i t →
      ∃ t', body i t = some t' ∧ Inv (i + 1) t')
    (hq : ∀ s', Inv (min hi stop) s' → Q s') :
    ∃ s', forRangeBrk lo hi brk body s = some s' ∧ Q s' := by
  obtain ⟨s', h1, h2⟩ := forRangeBrk_inv Inv brk body lo hi stop s hbrk hle hls h0 hstep
  exact ⟨s', h1, hq s' h2⟩

theorem forLoop_inv_of_some {σ : Type} (Inv : Int → σ → Prop) (body : Int → σ → Option σ) :
    ∀ (n : Nat) (lo : Int) (s s' : σ), Inv lo s →
      (∀ i t t', lo ≤ i → i < lo + n → Inv i t → body i t = some t' → Inv (i + 1) t') →
      forLoop body n lo s = some s' → Inv (lo + n) s' := by
  intro n
  induction n with
  | zero =>
    intro lo s s' h0 _ hrun
    simp only [forLoop, Option.some.injEq] at hrun
    subst hrun
    simpa using h0
  | succ n ih =>
    intro lo s s' h0 hstep hrun
    simp only [forLoop] at hrun
    cases hb : body lo s with
    | none => rw [hb] at hrun; simp at hrun
    | some t =>
      rw [hb] at hrun
      have hInv := hstep lo s t (le_refl _) (by push_cast; omega) h0 hb
      have := ih (lo + 1) t s' hInv
        (fun i u u' h1 h2 hu hbu => hstep i u u' (by omega) (by push_cast; omega) hu hbu) hrun
      have e : lo + ((n + 1 : Nat) : Int) = lo + 1 + (n : Int) := by push_cast; omega
      rw [e]; exact this

/-- Invariant rule for a loop that is known to have run to its end. -/
theorem forRange_inv_of_some {σ : Type} (Inv : Int → σ → Prop) (body : Int → σ → Option σ)
    (lo hi : Int) (s s' : σ) (h0 : Inv lo s)
    (hstep : ∀ i t t', lo ≤ i → i < hi → Inv i t → body i t = some t' → Inv (i + 1) t')
    (hrun : forRange lo hi body s = some s') : Inv (max lo hi) s' := by
  by_cases hle : lo ≤ hi
  · have e : lo + (((hi - lo).toNat : Nat) : Int) = hi := by
      rw [Int.toNat_of_nonneg (by omega)]; omega
    have := forLoop_inv_of_some Inv body (hi - lo).toNat lo s s' h0
      (fun i t t' h1 h2 ht hb => hstep i t t' h1 (by omega) ht hb) hrun
    rw [e] at this
    rw [max_eq_right hle]
    exact this
  · rw [forRange_empty body lo hi s (by omega)] at hrun
    simp only [Option.some.injEq] at hrun
    subst hrun
    rw [max_eq_left (by omega)]
    exact h0

/-! ## Painting a region -/

namespace Image

theorem Painted.init {d0 : Image} (h0 : d0.NonEmpty) {R : Int → Int → Int → Prop}
    (val : Int → Int → Int → Option Nat) (hR : ∀ i j k, ¬ R i j k) :
    Painted d0 d0 R val :=
  ⟨⟨rfl, rfl, rfl⟩, h0, fun i j k => ⟨fun hf => (hR i j k hf).elim, fun _ => rfl⟩⟩

theorem Painted.congr {d0 d : Image} {R R' : Int → Int → Int → Prop}
    {val : Int → Int → Int → Option Nat} (hp : Painted d0 d R val)
    (hr : ∀ i j k, R i j k ↔ R' i j k) : Painted d0 d R' val := by
  obtain ⟨h1, h2, h3⟩ := hp
  refine ⟨h1, h2, fun i j k => ⟨fun hh => (h3 i j k).1 ((hr i j k).2 hh), fun hh => ?_⟩⟩
  exact (h3 i j k).2 (fun hq => hh ((hr i j k).1 hq))

theorem Painted.store {d0 d : Image} {R : Int → Int → Int → Prop}
    {val : Int → Int → Int → Option Nat} (hp : Painted d0 d R val) {a b e : Int}
    (hb : d0.InBounds a b e) {v : Nat} (hv : val a b e = some v) :
    ∃ d', d.storePixel a b e v = some d' ∧
      Painted d0 d' (fun i j k => R i j k ∨ (i = a ∧ j = b ∧ k = e)) val := by
  obtain ⟨h1, h2, h3⟩ := hp
  obtain ⟨d', hd', hs', hne', hrd, hfr⟩ := storePixel_spec h2 ((h1.inBounds_iff a b e).2 hb) v
  refine ⟨d', hd', ⟨hs'.1.trans h1.1, hs'.2.1.trans h1.2.1, hs'.2.2.trans h1.2.2⟩, hne', ?_⟩
  intro i j k
  by_cases hq : i = a ∧ j = b ∧ k = e
  · obtain ⟨q1, q2, q3⟩ := hq
    subst q1 q2 q3
    exact ⟨fun _ => by rw [hrd, hv], fun hn => (hn (Or.inr ⟨rfl, rfl, rfl⟩)).elim⟩
  · have hne : i ≠ a ∨ j ≠ b ∨ k ≠ e := by
      by_contra hc
      push_neg at hc
      exact hq hc
    rw [hfr i j k hne]
    refine ⟨fun hh => ?_, fun hh => ?_⟩
    · rcases hh with hh | hh
      · exact (h3 i j k).1 hh
      · exact (hq hh).elim
    · exact (h3 i j k).2 (fun hr => hh (Or.inl hr))

theorem Painted.repainted {d0 d : Image} {R : Int → Int → Int → Prop}
    {val : Int → Int → Int → Option Nat} (hp : Painted d0 d R val) : Repainted d0 d R val :=
  ⟨hp.1, hp.2.2⟩

theorem Repainted.start (d0 : Image) {R : Int → Int → Int → Prop}
    (val : Int → Int → Int → Option Nat) (hR : ∀ i j k, ¬ R i j k) :
    Repainted d0 d0 R val :=
  ⟨⟨rfl, rfl, rfl⟩, fun i j k => ⟨fun hf => (hR i j k hf).elim, fun _ => rfl⟩⟩

theorem Repainted.region {d0 d : Image} {R R' : Int → Int → Int → Prop}
    {val : Int → Int → Int → Option Nat} (hp : Repainted d0 d R val)
    (hr : ∀ i j k, R i j k ↔ R' i j k) : Repainted d0 d R' val := by
  obtain ⟨h1, h3⟩ := hp
  refine ⟨h1, fun i j k => ⟨fun hh => (h3 i j k).1 ((hr i j k).2 hh), fun hh => ?_⟩⟩
  exact (h3 i j k).2 (fun hq => hh ((hr i j k).1 hq))

/-- A successful store extends the repainted region by the stored coordinate. -/
theorem Repainted.write {d0 d d' : Image} {R : Int → Int → Int → Prop}
    {val : Int → Int → Int → Option Nat} (hp : Repainted d0 d R val) {a b e : Int} {v : Nat}
    (hst : d.storePixel a b e v = some d') (hv : val a b e = some v) :
    Repainted d0 d' (fun i j k => R i j k ∨ (i = a ∧ j = b ∧ k = e)) val := by
  obtain ⟨h1, h3⟩ := hp
  obtain ⟨hs', _, hrd, hfr⟩ := storePixel_frame hst
  refine ⟨⟨hs'.1.trans h1.1, hs'.2.1.trans h1.2.1, hs'.2.2.trans h1.2.2⟩, ?_⟩
  intro i j k
  by_cases hq : i = a ∧ j = b ∧ k = e
  · obtain ⟨q1, q2, q3⟩ := hq
    subst q1 q2 q3
    exact ⟨fun _ => by rw [hrd, hv], fun hn => (hn (Or.inr ⟨rfl, rfl, rfl⟩)).elim⟩
  · have hne : i ≠ a ∨ j ≠ b ∨ k ≠ e := by
      by_contra hc
      push_neg at hc
      exact hq hc
    rw [hfr i j k hne]
    refine ⟨fun hh => ?_, fun hh => ?_⟩
    · rcases hh with hh | hh
      · exact (h3 i j k).1 hh
      · exact (hq hh).elim
    · exact (h3 i j k).2 (fun hr => hh (Or.inl hr))

theorem mkFilled_eq {h w c : Int} (pxl : Nat) (hh : 0 < h) (hw : 0 < w) (hc : 0 < c)
    (hf : h * w * c < 2 ^ 64) :
    mkFilled h w c pxl = some ⟨h, w, c, some (List.replicate (h * w * c).toNat pxl)⟩ := by
  unfold mkFilled
  rw [if_pos ⟨hh, hw, hc⟩]
  simp only [size_mk none hh hw hc hf]

theorem filled_nonEmpty {h w c : Int} (pxl : Nat) (hh : 0 < h) (hw : 0 < w) (hc : 0 < c)
    (hf : h * w * c < 2 ^ 64) :
    NonEmpty ⟨h, w, c, some (List.replicate (h * w * c).toNat pxl)⟩ := by
  refine ⟨hh, hw, hc, ?_, hf⟩
  have hp : 0 < h * w * c := Int.mul_pos (Int.mul_pos hh hw) hc
  simp only [Option.map_some', List.length_replicate]
  rw [Int.toNat_of_nonneg (by omega)]

theorem filled_pixel {h w c : Int} (pxl : Nat) (hh : 0 < h) (hw : 0 < w) (hc : 0 < c)
    (hf : h * w * c < 2 ^ 64) {x y z : Int}
    (hb : InBounds ⟨h, w, c, some (List.replicate (h * w * c).toNat pxl)⟩ x y z) :
    pixel ⟨h, w, c, some (List.replicate (h * w * c).toNat pxl)⟩ x y z = some pxl := by
  obtain ⟨d, hd, hp, hl⟩ := pixel_eq (filled_nonEmpty pxl hh hw hc hf) hb
  simp only [Option.some.injEq] at hd
  subst hd
  rw [hp]
  exact List.getElem?_replicate_of_lt (by simpa using hl)

end Image

/-- The rows 50..99 of `main_h_image` are black and the other rows white. -/
theorem main_h_image_spec :
    ∃ im, main_h_image = some im ∧ im.h = 100 ∧ im.w = 100 ∧ im.c = 3 ∧
      ∀ i j k, Image.InBounds im i j k →
        im.pixel i j k = if 50 ≤ i then some 0x00 else some 0xFF := by
  have hne := Image.filled_nonEmpty 0xFF (h := 100) (w := 100) (c := 3)
    (by decide) (by decide) (by decide) (by decide)
  generalize hd0 : (⟨100, 100, 3, some (List.replicate ((100 : Int) * 100 * 3).toNat 0xFF)⟩ :
    Image) = d0 at hne
  have hfill : ∀ i j k, d0.InBounds i j k → d0.pixel i j k = some 0xFF := by
    intro i j k hb
    subst hd0
    exact Image.filled_pixel 0xFF (by decide) (by decide) (by decide) (by decide) hb
  have hh : d0.h = 100 := by subst hd0; rfl
  have hw : d0.w = 100 := by subst hd0; rfl
  have hc : d0.c = 3 := by subst hd0; rfl
  have hmk : main_h_image = forRange 50 100 (fun i d =>
      forRange 0 100 (fun j d =>
        match d.storePixel i j 0 0x00 with
        | none => none
        | some d =>
          match d.storePixel i j 1 0x00 with
          | none => none
          | some d => d.storePixel i j 2 0x00) d) d0 := by
    unfold main_h_image
    rw [Image.mkFilled_eq 0xFF (by decide) (by decide) (by decide) (by decide), hd0]
  obtain ⟨im, him, hp⟩ := forRange_inv
    (fun a d => Image.Painted d0 d
      (fun i j k => 50 ≤ i ∧ i < a ∧ 0 ≤ j ∧ j < 100 ∧ 0 ≤ k ∧ k < 3) (fun _ _ _ => some 0))
    _ 50 100 d0 (by decide)
    (Image.Painted.init hne _ (fun i j k => by omega))
    (fun a d ha1 ha2 hpa => by
      obtain ⟨d', hd', hp'⟩ := forRange_inv
        (fun b d => Image.Painted d0 d
          (fun i j k => (50 ≤ i ∧ i < a ∧ 0 ≤ j ∧ j < 100 ∧ 0 ≤ k ∧ k < 3) ∨
            (i = a ∧ 0 ≤ j ∧ j < b ∧ 0 ≤ k ∧ k < 3)) (fun _ _ _ => some 0))
        (fun j d =>
          match d.storePixel a j 0 0x00 with
          | none => none
          | some d =>
            match d.storePixel a j 1 0x00 with
            | none => none
            | some d => d.storePixel a j 2 0x00) 0 100 d (by decide)
        (hpa.congr (fun i j k => by omega))
        (fun b t hb1 hb2 hpt => by
          obtain ⟨t1, ht1, hp1⟩ := hpt.store (a := a) (b := b) (e := 0) (v := 0)
            ⟨by omega, by omega, by omega, by omega, by omega, by omega⟩ rfl
          obtain ⟨t2, ht2, hp2⟩ := hp1.store (a := a) (b := b) (e := 1) (v := 0)
            ⟨by omega, by omega, by omega, by omega, by omega, by omega⟩ rfl
          obtain ⟨t3, ht3, hp3⟩ := hp2.store (a := a) (b := b) (e := 2) (v := 0)
            ⟨by omega, by omega, by omega, by omega, by omega, by omega⟩ rfl
          refine ⟨t3, ?_, hp3.congr (fun i j k => by omega)⟩
          simp only [ht1, ht2, ht3])
      exact ⟨d', hd', hp'.congr (fun i j k => by omega)⟩)
  obtain ⟨hs, _, hpx⟩ := hp
  refine ⟨im, hmk.trans him, hs.1.trans hh, hs.2.1.trans hw, hs.2.2.trans hc, ?_⟩
  intro i j k hb
  have hb0 : d0.InBounds i j k := (hs.inBounds_iff i j k).1 hb
  obtain ⟨b1, b2, b3, b4, b5, b6⟩ := hb0
  by_cases h50 : 50 ≤ i
  · rw [if_pos h50]
    exact (hpx i j k).1 ⟨by omega, by omega, by omega, by omega, by omega, by omega⟩
  · rw [if_neg h50, (hpx i j k).2 (fun hq => h50 hq.1)]
    exact hfill i j k ⟨b1, b2, b3, b4, b5, b6⟩

namespace Image

theorem WellFormed.nonEmpty_of_pos {m : Image} (hw : m.WellFormed) (hc : 0 < m.c) :
    m.NonEmpty := by
  rcases hw with ⟨_, _, h3, _⟩ | h
  · omega
  · exact h

theorem WellFormed.nonneg {m : Image} (hw : m.WellFormed) : 0 ≤ m.h ∧ 0 ≤ m.w ∧ 0 ≤ m.c := by
  rcases hw with ⟨h1, h2, h3, _⟩ | ⟨h1, h2, h3, _⟩ <;> omega

/-- What `stamp` does for a non-negative origin: it repaints the overlap with
the pixels of the source. -/
theorem stamp_paints (m img : Image) (x y : Int) (hm : m.NonEmpty) (hs : img.WellFormed)
    (hx : 0 ≤ x) (hy : 0 ≤ y) :
    ∃ m', m.stamp img x y = some m' ∧
      Painted m m' (fun i j k => x ≤ i ∧ i < min m.h (img.h + x) ∧ y ≤ j ∧
        j < min m.w (img.w + y) ∧ 0 ≤ k ∧ k < min m.c img.c)
        (fun i j k => img.pixel (i - x) (j - y) k) := by
  have hsn := hs.nonneg
  unfold stamp
  refine forRange_rule
    (fun a d => Painted m d (fun i j k => x ≤ i ∧ i < a ∧ y ≤ j ∧
        j < min m.w (img.w + y) ∧ 0 ≤ k ∧ k < min m.c img.c)
        (fun i j k => img.pixel (i - x) (j - y) k)) _ _ _ _ _
    (Painted.init hm _ (fun i j k => by omega)) ?_ ?_
  · intro a d ha1 ha2 hpa
    refine forRange_rule
      (fun b d => Painted m d (fun i j k => (x ≤ i ∧ i < a ∧ y ≤ j ∧
          j < min m.w (img.w + y) ∧ 0 ≤ k ∧ k < min m.c img.c) ∨
          (i = a ∧ y ≤ j ∧ j < b ∧ 0 ≤ k ∧ k < min m.c img.c))
          (fun i j k => img.pixel (i - x) (j - y) k)) _ _ _ _ _
      (hpa.congr (fun i j k => by omega)) ?_ ?_
    · intro b t hb1 hb2 hpt
      have htc : t.c = m.c := hpt.1.2.2
      have hmc : 0 < m.c := hm.2.2.1
      refine forRangeBrk_rule
        (fun z d => Painted m d (fun i j k => ((x ≤ i ∧ i < a ∧ y ≤ j ∧
            j < min m.w (img.w + y) ∧ 0 ≤ k ∧ k < min m.c img.c) ∨
            (i = a ∧ y ≤ j ∧ j < b ∧ 0 ≤ k ∧ k < min m.c img.c)) ∨
            (i = a ∧ j = b ∧ 0 ≤ k ∧ k < z))
            (fun i j k => img.pixel (i - x) (j - y) k)) _ _ _ _ img.c _ _
        (fun _ _ => rfl) (by omega) (by omega)
        (hpt.congr (fun i j k => by omega)) ?_ ?_
      · intro z u hz1 hz2 hz3 hpu
        have hin : img.NonEmpty := hs.nonEmpty_of_pos (by omega)
        obtain ⟨v, hv⟩ := pixel_isSome hin (x := a - x) (y := b - y) (z := z)
          ⟨by omega, by omega, by omega, by omega, by omega, by omega⟩
        obtain ⟨u', hu', hpu'⟩ := hpu.store (a := a) (b := b) (e := z) (v := v)
          ⟨by omega, by omega, by omega, by omega, by omega, by omega⟩ hv
        refine ⟨u', ?_, hpu'.congr (fun i j k => by omega)⟩
        simp only [hv, hu']
      · intro s' hs'
        exact hs'.congr (fun i j k => by omega)
    · intro s' hs'
      exact hs'.congr (fun i j k => by omega)
  · intro s' hs'
    exact hs'.congr (fun i j k => by omega)

end Image

/-! ## Cropping -/

namespace Image

theorem mkSized_eq {h w c : Int} (junk : Nat → Nat) (hh : 0 < h) (hw : 0 < w) (hc : 0 < c)
    (hf : h * w * c < 2 ^ 64) :
    mkSized h w c junk = some ⟨h, w, c, some ((List.range (h * w * c).toNat).map junk)⟩ := by
  have hp : 0 < h * w * c := Int.mul_pos (Int.mul_pos hh hw) hc
  unfold mkSized
  rw [if_pos ⟨hh, hw, hc⟩]
  simp only [size_mk none hh hw hc hf]
  rw [if_pos hp]

/-- What a successful `Image(h, w, c)` says: positive shape, and a fresh
allocation of `size()` bytes with `size() > 0`. -/
theorem mkSized_some {h w c : Int} {junk : Nat → Nat} {r : Image}
    (hr : mkSized h w c junk = some r) :
    0 < h ∧ 0 < w ∧ 0 < c ∧ 0 < (h * w * c) % 2 ^ 64 ∧
      r = ⟨h, w, c, some ((List.range ((h * w * c) % 2 ^ 64).toNat).map junk)⟩ := by
  unfold mkSized at hr
  by_cases h1 : h > 0 ∧ w > 0 ∧ c > 0
  · rw [if_pos h1] at hr
    simp only [size] at hr
    by_cases h2 : (h * w * c) % 2 ^ 64 > 0
    · rw [if_pos h2] at hr
      simp only [Option.some.injEq] at hr
      exact ⟨h1.1, h1.2.1, h1.2.2, h2, hr.symm⟩
    · rw [if_neg h2] at hr
      simp at hr
  · rw [if_neg h1] at hr
    simp at hr

theorem sized_nonEmpty {h w c : Int} (junk : Nat → Nat) (hh : 0 < h) (hw : 0 < w) (hc : 0 < c)
    (hf : h * w * c < 2 ^ 64) :
    NonEmpty ⟨h, w, c, some ((List.range (h * w * c).toNat).map junk)⟩ := by
  refine ⟨hh, hw, hc, ?_, hf⟩
  have hp : 0 < h * w * c := Int.mul_pos (Int.mul_pos hh hw) hc
  simp only [Option.map_some', List.length_map, List.length_range]
  rw [Int.toNat_of_nonneg (by omega)]

theorem WellFormed.empty_eq_true {m : Image} (hw : m.WellFormed) (hn : ¬ m.NonEmpty) :
    m.empty = some true := by
  rcases hw with ⟨h1, _, _, h4⟩ | h
  · unfold empty size
    rw [h1, h4]
    simp
  · exact (hn h).elim

/-- The copy loops of `crop`: the window `[sx,ex) x [sy,ey)` of `m` is painted
at the top-left of `image`. -/
theorem crop_loops (m image : Image) (sx ex sy ey : Int) (hm : m.NonEmpty)
    (hi : image.NonEmpty) (hc : image.c = m.c) (hsx : 0 ≤ sx) (hex : ex ≤ m.h)
    (hsy : 0 ≤ sy) (hey : ey ≤ m.w) (hh : ex - sx ≤ image.h) (hw : ey - sy ≤ image.w) :
    ∃ r, forRange sx ex (fun h im =>
          forRange sy ey (fun w im =>
            forRange 0 m.c (fun c im =>
              match m.pixel h w c with
              | none => none
              | some v => im.storePixel (h - sx) (w - sy) c v) im) im) image = some r ∧
      Painted image r (fun i j k => 0 ≤ i ∧ i < ex - sx ∧ 0 ≤ j ∧ j < ey - sy ∧ 0 ≤ k ∧ k < m.c)
        (fun i j k => m.pixel (sx + i) (sy + j) k) := by
  have hmc : 0 < m.c := hm.2.2.1
  refine forRange_rule
    (fun a d => Painted image d (fun i j k => 0 ≤ i ∧ i < a - sx ∧ 0 ≤ j ∧ j < ey - sy ∧
        0 ≤ k ∧ k < m.c) (fun i j k => m.pixel (sx + i) (sy + j) k)) _ _ _ _ _
    (Painted.init hi _ (fun i j k => by omega)) ?_ ?_
  · intro a d ha1 ha2 hpa
    refine forRange_rule
      (fun b d => Painted image d (fun i j k => (0 ≤ i ∧ i < a - sx ∧ 0 ≤ j ∧ j < ey - sy ∧
          0 ≤ k ∧ k < m.c) ∨ (i = a - sx ∧ 0 ≤ j ∧ j < b - sy ∧ 0 ≤ k ∧ k < m.c))
          (fun i j k => m.pixel (sx + i) (sy + j) k)) _ _ _ _ _
      (hpa.congr (fun i j k => by omega)) ?_ ?_
    · intro b t hb1 hb2 hpt
      refine forRange_rule
        (fun z d => Painted image d (fun i j k => ((0 ≤ i ∧ i < a - sx ∧ 0 ≤ j ∧
            j < ey - sy ∧ 0 ≤ k ∧ k < m.c) ∨
            (i = a - sx ∧ 0 ≤ j ∧ j < b - sy ∧ 0 ≤ k ∧ k < m.c)) ∨
            (i = a - sx ∧ j = b - sy ∧ 0 ≤ k ∧ k < z))
            (fun i j k => m.pixel (sx + i) (sy + j) k)) _ _ _ _ _
        (hpt.congr (fun i j k => by omega)) ?_ ?_
      · intro z u hz1 hz2 hpu
        obtain ⟨v, hv⟩ := pixel_isSome hm (x := a) (y := b) (z := z)
          ⟨by omega, by omega, by omega, by omega, by omega, by omega⟩
        have hv' : (fun i j k => m.pixel (sx + i) (sy + j) k) (a - sx) (b - sy) z = some v := by
          show m.pixel (sx + (a - sx)) (sy + (b - sy)) z = some v
          rw [show sx + (a - sx) = a by omega, show sy + (b - sy) = b by omega]
          exact hv
        obtain ⟨u', hu', hpu'⟩ := hpu.store (a := a - sx) (b := b - sy) (e := z) (v := v)
          ⟨by omega, by omega, by omega, by omega, by omega, by omega⟩ hv'
        refine ⟨u', ?_, hpu'.congr (fun i j k => by omega)⟩
        simp only [hv, hu']
      · intro s' hs'
        exact hs'.congr (fun i j k => by omega)
    · intro s' hs'
      exact hs'.congr (fun i j k => by omega)
  · intro s' hs'
    exact hs'.congr (fun i j k => by omega)

/-- The branches of `crop` up to the allocation, with the clamps written as
`max` and `min`. -/
theorem crop_unfold (m : Image) (h w x y : Int) (junk : Nat → Nat) :
    m.crop h w x y junk =
      match m.empty with
      | none => none
      | some true => some (false, m)
      | some false =>
        if x < 0 ∨ x ≥ m.h then some (false, m)
        else if y < 0 ∨ y ≥ m.w then some (false, m)
        else if max 0 (x - Int.tdiv h 2) ≥ min m.h (x - Int.tdiv h 2 + h) ∨
            max 0 (y - Int.tdiv w 2) ≥ min m.w (y - Int.tdiv w 2 + w) then some (false, m)
        else
          match mkSized h w m.c junk with
          | none => none
          | some image =>
            match forRange (max 0 (x - Int.tdiv h 2)) (min m.h (x - Int.tdiv h 2 + h))
                (fun h' im =>
                  forRange (max 0 (y - Int.tdiv w 2)) (min m.w (y - Int.tdiv w 2 + w))
                    (fun w' im =>
                      forRange 0 m.c (fun c im =>
                        match m.pixel h' w' c with
                        | none => none
                        | some v =>
                          im.storePixel (h' - max 0 (x - Int.tdiv h 2))
                            (w' - max 0 (y - Int.tdiv w 2)) c v) im) im) image with
            | none => none
            | some image => some (true, image) := by
  have e1 : (if x - Int.tdiv h 2 < 0 then 0 else x - Int.tdiv h 2) = max 0 (x - Int.tdiv h 2) := by
    split_ifs <;> omega
  have e2 : (if y - Int.tdiv w 2 < 0 then 0 else y - Int.tdiv w 2) = max 0 (y - Int.tdiv w 2) := by
    split_ifs <;> omega
  have e3 : (if x - Int.tdiv h 2 + h > m.h then m.h else x - Int.tdiv h 2 + h) =
      min m.h (x - Int.tdiv h 2 + h) := by
    split_ifs <;> omega
  have e4 : (if y - Int.tdiv w 2 + w > m.w then m.w else y - Int.tdiv w 2 + w) =
      min m.w (y - Int.tdiv w 2 + w) := by
    split_ifs <;> omega
  unfold crop
  simp only [e1, e2, e3, e4, swap]

end Image

namespace Image

/-- The successful branch of `crop`, for a requested byte count below
`2 ^ 64`. -/
theorem crop_success {m : Image} (hm : m.NonEmpty) {h w x y : Int} (junk : Nat → Nat)
    (hx0 : 0 ≤ x) (hx : x < m.h) (hy0 : 0 ≤ y) (hy : y < m.w)
    (hwx : max 0 (x - Int.tdiv h 2) < min m.h (x - Int.tdiv h 2 + h))
    (hwy : max 0 (y - Int.tdiv w 2) < min m.w (y - Int.tdiv w 2 + w))
    (hf : h * w * m.c < 2 ^ 64) :
    ∃ r, m.crop h w x y junk = some (true, r) ∧ 0 < h ∧ 0 < w ∧
      Painted ⟨h, w, m.c, some ((List.range (h * w * m.c).toNat).map junk)⟩ r
        (fun i j k => 0 ≤ i ∧
          i < min m.h (x - Int.tdiv h 2 + h) - max 0 (x - Int.tdiv h 2) ∧ 0 ≤ j ∧
          j < min m.w (y - Int.tdiv w 2 + w) - max 0 (y - Int.tdiv w 2) ∧ 0 ≤ k ∧ k < m.c)
        (fun i j k => m.pixel (max 0 (x - Int.tdiv h 2) + i) (max 0 (y - Int.tdiv w 2) + j) k) := by
  have hh : 0 < h := by omega
  have hw : 0 < w := by omega
  have hc : 0 < m.c := hm.2.2.1
  obtain ⟨r, hr, hp⟩ := crop_loops m
    ⟨h, w, m.c, some ((List.range (h * w * m.c).toNat).map junk)⟩
    (max 0 (x - Int.tdiv h 2)) (min m.h (x - Int.tdiv h 2 + h))
    (max 0 (y - Int.tdiv w 2)) (min m.w (y - Int.tdiv w 2 + w))
    hm (sized_nonEmpty junk hh hw hc hf) rfl (by omega) (by omega) (by omega) (by omega)
    (by show _ ≤ h; omega) (by show _ ≤ w; omega)
  refine ⟨r, ?_, hh, hw, hp⟩
  rw [crop_unfold, hm.empty_eq]
  simp only []
  rw [if_neg (by omega), if_neg (by omega), if_neg (by omega), mkSized_eq junk hh hw hc hf]
  simp only [hr]

/-- The failing branches of `crop`. -/
theorem crop_failure {m : Image} (hwf : m.WellFormed) {h w x y : Int} (junk : Nat → Nat)
    (hc : ¬ m.NonEmpty ∨ x < 0 ∨ x ≥ m.h ∨ y < 0 ∨ y ≥ m.w ∨
      max 0 (x - Int.tdiv h 2) ≥ min m.h (x - Int.tdiv h 2 + h) ∨
      max 0 (y - Int.tdiv w 2) ≥ min m.w (y - Int.tdiv w 2 + w)) :
    m.crop h w x y junk = some (false, m) := by
  rw [crop_unfold]
  by_cases hne : m.NonEmpty
  · rw [hne.empty_eq]
    simp only []
    split_ifs with c1 c2 c3
    · rfl
    · rfl
    · rfl
    · exfalso
      rcases hc with hc | hc | hc | hc | hc | hc | hc
      · exact hc hne
      all_goals omega
  · rw [hwf.empty_eq_true hne]

/-- The copy loops of `crop`, known to have run to their end: the window
`[sx,ex) x [sy,ey)` of `m` is found at the top-left of the result. -/
theorem crop_loops_some (m image r : Image) (sx ex sy ey : Int)
    (hrun : forRange sx ex (fun h im =>
          forRange sy ey (fun w im =>
            forRange 0 m.c (fun c im =>
              match m.pixel h w c with
              | none => none
              | some v => im.storePixel (h - sx) (w - sy) c v) im) im) image = some r) :
    Repainted image r
      (fun i j k => 0 ≤ i ∧ i < ex - sx ∧ 0 ≤ j ∧ j < ey - sy ∧ 0 ≤ k ∧ k < m.c)
      (fun i j k => m.pixel (sx + i) (sy + j) k) := by
  have h1 := forRange_inv_of_some
    (fun a d => Repainted image d (fun i j k => 0 ≤ i ∧ i < a - sx ∧ 0 ≤ j ∧ j < ey - sy ∧
        0 ≤ k ∧ k < m.c) (fun i j k => m.pixel (sx + i) (sy + j) k)) _ _ _ _ _
    (Repainted.start image _ (fun i j k => by omega)) ?_ hrun
  · exact h1.region (fun i j k => by omega)
  · intro a d d' ha1 ha2 hpa hba
    have h2 := forRange_inv_of_some
      (fun b d => Repainted image d (fun i j k => (0 ≤ i ∧ i < a - sx ∧ 0 ≤ j ∧ j < ey - sy ∧
          0 ≤ k ∧ k < m.c) ∨ (i = a - sx ∧ 0 ≤ j ∧ j < b - sy ∧ 0 ≤ k ∧ k < m.c))
          (fun i j k => m.pixel (sx + i) (sy + j) k)) _ _ _ _ _
      (hpa.region (fun i j k => by omega)) ?_ hba
    · exact h2.region (fun i j k => by omega)
    · intro b t t' hb1 hb2 hpt hbb
      have h3 := forRange_inv_of_some
        (fun z d => Repainted image d (fun i j k => ((0 ≤ i ∧ i < a - sx ∧ 0 ≤ j ∧
            j < ey - sy ∧ 0 ≤ k ∧ k < m.c) ∨
            (i = a - sx ∧ 0 ≤ j ∧ j < b - sy ∧ 0 ≤ k ∧ k < m.c)) ∨
            (i = a - sx ∧ j = b - sy ∧ 0 ≤ k ∧ k < z))
            (fun i j k => m.pixel (sx + i) (sy + j) k)) _ _ _ _ _
        (hpt.region (fun i j k => by omega)) ?_ hbb
      · exact h3.region (fun i j k => by omega)
      · intro z u u' hz1 hz2 hpu hbz
        cases hv : m.pixel a b z with
        | none => rw [hv] at hbz; simp at hbz
        | some v =>
          rw [hv] at hbz
          have hv' : (fun i j k => m.pixel (sx + i) (sy + j) k) (a - sx) (b - sy) z = some v := by
            show m.pixel (sx + (a - sx)) (sy + (b - sy)) z = some v
            rw [show sx + (a - sx) = a by omega, show sy + (b - sy) = b by omega]
            exact hv
          exact (hpu.write hbz hv').region (fun i j k => by omega)

/-- Every successful `crop` on a well-formed buffer went through the
successful branch: the new buffer has the requested shape and holds the
clamped window at its top-left. -/
theorem crop_true_inv {m : Image} (hwf : m.WellFormed) {h w x y : Int} {junk : Nat → Nat}
    {r : Image} (hr : m.crop h w x y junk = some (true, r)) :
    m.NonEmpty ∧ 0 ≤ x ∧ x < m.h ∧ 0 ≤ y ∧ y < m.w ∧ 0 < h ∧ 0 < w ∧
      max 0 (x - Int.tdiv h 2) < min m.h (x - Int.tdiv h 2 + h) ∧
      max 0 (y - Int.tdiv w 2) < min m.w (y - Int.tdiv w 2 + w) ∧
      0 < (h * w * m.c) % 2 ^ 64 ∧
      Repainted ⟨h, w, m.c, some ((List.range ((h * w * m.c) % 2 ^ 64).toNat).map junk)⟩ r
        (fun i j k => 0 ≤ i ∧
          i < min m.h (x - Int.tdiv h 2 + h) - max 0 (x - Int.tdiv h 2) ∧ 0 ≤ j ∧
          j < min m.w (y - Int.tdiv w 2 + w) - max 0 (y - Int.tdiv w 2) ∧ 0 ≤ k ∧ k < m.c)
        (fun i j k => m.pixel (max 0 (x - Int.tdiv h 2) + i) (max 0 (y - Int.tdiv w 2) + j) k) := by
  by_cases hc : ¬ m.NonEmpty ∨ x < 0 ∨ x ≥ m.h ∨ y < 0 ∨ y ≥ m.w ∨
      max 0 (x - Int.tdiv h 2) ≥ min m.h (x - Int.tdiv h 2 + h) ∨
      max 0 (y - Int.tdiv w 2) ≥ min m.w (y - Int.tdiv w 2 + w)
  · rw [crop_failure hwf junk hc] at hr
    simp at hr
  · simp only [not_or, not_not, not_le, not_lt, ge_iff_le] at hc
    obtain ⟨c1, c2, c3, c4, c5, c6, c7⟩ := hc
    have hh : 0 < h := by omega
    have hw : 0 < w := by omega
    rw [crop_unfold, c1.empty_eq] at hr
    simp only [] at hr
    rw [if_neg (by omega), if_neg (by omega), if_neg (by omega)] at hr
    cases hmk : mkSized h w m.c junk with
    | none => rw [hmk] at hr; simp at hr
    | some image =>
      rw [hmk] at hr
      simp only [] at hr
      obtain ⟨_, _, _, hsz, himg⟩ := mkSized_some hmk
      cases hloop : forRange (max 0 (x - Int.tdiv h 2)) (min m.h (x - Int.tdiv h 2 + h))
          (fun h' im =>
            forRange (max 0 (y - Int.tdiv w 2)) (min m.w (y - Int.tdiv w 2 + w))
              (fun w' im =>
                forRange 0 m.c (fun c im =>
                  match m.pixel h' w' c with
                  | none => none
                  | some v =>
                    im.storePixel (h' - max 0 (x - Int.tdiv h 2))
                      (w' - max 0 (y - Int.tdiv w 2)) c v) im) im) image with
      | none => rw [hloop] at hr; simp at hr
      | some image' =>
        rw [hloop] at hr
        simp only [Option.some.injEq, Prod.mk.injEq, true_and] at hr
        subst hr
        have hp := crop_loops_some m image image' _ _ _ _ hloop
        rw [himg] at hp
        exact ⟨c1, c2, c3, c4, c5, hh, hw, c6, c7, hsz, hp⟩

end Image

/-! ## Resizing -/

namespace Image

/-- A call of the resampler on two non-empty buffers whose rows lie inside
their allocations returns, and leaves a non-empty output of the same shape. -/
theorem resample_nonEmpty (rs : Resample) {src : Image} (a b c : Int) {out : Image}
    (d e f g : Int) (hs : src.NonEmpty) (ho : out.NonEmpty)
    (hi : b * c ≤ src.h * src.w * src.c) (hout : e * f ≤ out.h * out.w * out.c) :
    ∃ r, resampleInto rs src a b c out d e f g = some r ∧ r.NonEmpty ∧ SameShape r out := by
  obtain ⟨ds, hds, hls⟩ := hs.data
  obtain ⟨dd, hd, hl⟩ := ho.data
  unfold resampleInto
  rw [hds, hd]
  simp only []
  rw [if_pos ⟨by rw [hls]; exact hi, by rw [hl]; exact hout⟩]
  refine ⟨_, rfl, ⟨ho.1, ho.2.1, ho.2.2.1, ?_, ho.2.2.2.2⟩, rfl, rfl, rfl⟩
  show Option.map (fun (d : List Nat) => (d.length : Int)) (some _) =
    some (out.h * out.w * out.c)
  simp only [Option.map_some', List.length_map, List.length_range]
  rw [hl]

/-- What `resize` does on a non-empty buffer when both new dimensions are
positive and the new byte count is below `2 ^ 64`. -/
theorem resize_spec {m : Image} (hm : m.NonEmpty) {nh nw : Int} (rs : Resample)
    (junk : Nat → Nat) (hh : 0 < nh) (hw : 0 < nw) (hf : nh * nw * m.c < 2 ^ 64) :
    ∃ r k, m.resize nh nw rs junk = some (r, k) ∧ r.h = nh ∧ r.w = nw ∧ r.c = m.c ∧
      r.NonEmpty ∧ ((nh = m.h ∧ nw = m.w) → r = m ∧ k = 0) := by
  unfold resize
  rw [if_pos hh, if_pos hw]
  by_cases hs : nh = m.h ∧ nw = m.w
  · rw [if_pos hs]
    exact ⟨m, 0, rfl, hs.1.symm, hs.2.symm, rfl, hm, fun _ => ⟨rfl, rfl⟩⟩
  · rw [if_neg hs, mkSized_eq junk hh hw hm.2.2.1 hf]
    obtain ⟨r, hr, h1, h2⟩ := resample_nonEmpty rs m.w m.h (m.w * m.c) nw nh (nw * m.c) m.c
      hm (sized_nonEmpty junk hh hw hm.2.2.1 hf)
      (le_of_eq (by ring)) (le_of_eq (by show nh * (nw * m.c) = nh * nw * m.c; ring))
    simp only [hr]
    exact ⟨_, 1, rfl, h2.1, h2.2.1, h2.2.2, h1, fun hc => (hs hc).elim⟩

theorem tdiv_two {a : Int} (ha : 0 ≤ a) : Int.tdiv a 2 = a / 2 :=
  Int.tdiv_eq_ediv ha (by decide)

/-- With `0 < p ≤ q` and `n > 0` the truncated quotient `(q*n)/p` is at least `n`. -/
theorem scaled_ge {p q n : Int} (hp : 0 < p) (hpq : p ≤ q) (hn : 0 < n) :
    n ≤ Int.tdiv (q * n) p := by
  have hq : 0 ≤ q * n := Int.mul_nonneg (by omega) (by omega)
  rw [Int.tdiv_eq_ediv hq (by omega)]
  apply Int.le_ediv_of_mul_le hp
  have : p * n ≤ q * n := Int.mul_le_mul_of_nonneg_right hpq (by omega)
  linarith [Int.mul_comm n p]

end Image

namespace Image

/-- The tail shared by `resizeOnSmallerSide` and `resizeOnLargerSide`: the test
on the computed shape followed by `resize`. -/
theorem resize_tail {m : Image} (hm : m.NonEmpty) (nh nw : Int) (rs : Resample)
    (junk : Nat → Nat) :
    (0 < nh ∧ 0 < nw → nh * nw * m.c < 2 ^ 64 →
      ∃ r k, (if nh = m.h ∧ nw = m.w then some (m, 0) else m.resize nh nw rs junk) = some (r, k) ∧
        r.h = nh ∧ r.w = nw ∧ r.c = m.c ∧ r.NonEmpty ∧
        ((nh = m.h ∧ nw = m.w) → r = m ∧ k = 0)) ∧
    (¬ (0 < nh ∧ 0 < nw) →
      (if nh = m.h ∧ nw = m.w then some (m, 0) else m.resize nh nw rs junk) = none) := by
  constructor
  · intro hpos hf
    by_cases hs : nh = m.h ∧ nw = m.w
    · rw [if_pos hs]
      exact ⟨m, 0, rfl, hs.1.symm, hs.2.symm, rfl, hm, fun _ => ⟨rfl, rfl⟩⟩
    · rw [if_neg hs]
      exact resize_spec hm rs junk hpos.1 hpos.2 hf
  · intro hneg
    have h1 := hm.1
    have h2 := hm.2.1
    rw [if_neg (by omega)]
    unfold resize
    by_cases hh : nh > 0
    · rw [if_pos hh, if_neg (by omega)]
    · rw [if_neg hh]

end Image

namespace Image

/-- A centred square crop of side `min h w`: the window is not clamped. -/
theorem centerCrop_square {m : Image} (hm : m.NonEmpty) (junk : Nat → Nat) :
    ∃ r, m.centerCrop (min m.h m.w) (min m.h m.w) junk = some (true, r) ∧
      r.h = min m.h m.w ∧ r.w = min m.h m.w ∧ r.c = m.c ∧
      0 ≤ Int.tdiv m.h 2 - Int.tdiv (min m.h m.w) 2 ∧
      Int.tdiv m.h 2 - Int.tdiv (min m.h m.w) 2 + min m.h m.w ≤ m.h ∧
      0 ≤ Int.tdiv m.w 2 - Int.tdiv (min m.h m.w) 2 ∧
      Int.tdiv m.w 2 - Int.tdiv (min m.h m.w) 2 + min m.h m.w ≤ m.w ∧
      ∀ i j k, 0 ≤ i → i < min m.h m.w → 0 ≤ j → j < min m.h m.w → 0 ≤ k → k < m.c →
        ∃ v, m.pixel (Int.tdiv m.h 2 - Int.tdiv (min m.h m.w) 2 + i)
            (Int.tdiv m.w 2 - Int.tdiv (min m.h m.w) 2 + j) k = some v ∧
          r.pixel i j k = some v := by
  have hh := hm.1
  have hw := hm.2.1
  have e1 : Int.tdiv m.h 2 = m.h / 2 := tdiv_two (by omega)
  have e2 : Int.tdiv m.w 2 = m.w / 2 := tdiv_two (by omega)
  have e3 : Int.tdiv (min m.h m.w) 2 = min m.h m.w / 2 := tdiv_two (by omega)
  obtain ⟨r, hr, _, _, hp⟩ := crop_success hm (h := min m.h m.w) (w := min m.h m.w)
    (x := Int.tdiv m.h 2) (y := Int.tdiv m.w 2) junk
    (by omega) (by omega) (by omega) (by omega) (by omega) (by omega)
    (fits_of_le (by omega) (by omega) hm.2.2.1 (by omega) (by omega) hm.2.2.2.2)
  obtain ⟨⟨s1, s2, s3⟩, _, hpx⟩ := hp
  refine ⟨r, hr, s1, s2, s3, by omega, by omega, by omega, by omega, ?_⟩
  intro i j k i0 i1 j0 j1 k0 k1
  obtain ⟨v, hv⟩ := pixel_isSome hm
    (x := Int.tdiv m.h 2 - Int.tdiv (min m.h m.w) 2 + i)
    (y := Int.tdiv m.w 2 - Int.tdiv (min m.h m.w) 2 + j) (z := k)
    ⟨by omega, by omega, by omega, by omega, k0, k1⟩
  refine ⟨v, hv, ?_⟩
  have hq := (hpx i j k).1 ⟨i0, by omega, j0, by omega, k0, k1⟩
  have a1 : max 0 (Int.tdiv m.h 2 - Int.tdiv (min m.h m.w) 2) =
      Int.tdiv m.h 2 - Int.tdiv (min m.h m.w) 2 := by omega
  have a2 : max 0 (Int.tdiv m.w 2 - Int.tdiv (min m.h m.w) 2) =
      Int.tdiv m.w 2 - Int.tdiv (min m.h m.w) 2 := by omega
  simp only [a1, a2] at hq
  rw [hq, hv]

end Image

/-! ## From byte indices to coordinates -/

namespace Image

/-- An index below `h * w` splits into a row and a column. -/
theorem split_index {h w : Int} (i : Int) (hw : 0 < w) (hi0 : 0 ≤ i) (hi : i < h * w) :
    0 ≤ i / w ∧ i / w < h ∧ 0 ≤ i % w ∧ i % w < w ∧ i % w + i / w * w = i := by
  refine ⟨Int.ediv_nonneg hi0 (by omega), Int.ediv_lt_of_lt_mul hw hi,
    Int.emod_nonneg i (by omega), Int.emod_lt_of_pos i hw, Int.emod_add_ediv' i w⟩

/-- Every byte index of a non-empty buffer is the offset of an in-bounds
coordinate. -/
theorem index_coords {m : Image} (hm : m.NonEmpty) (n : Nat) (hn : (n : Int) < m.h * m.w * m.c) :
    ∃ x y z, m.InBounds x y z ∧ (z + y * m.c + x * m.c * m.w).toNat = n := by
  obtain ⟨a1, a2, a3, a4, a5⟩ := split_index (h := m.h * m.w) (n : Int) hm.2.2.1 (by omega) hn
  obtain ⟨b1, b2, b3, b4, b5⟩ := split_index (h := m.h) ((n : Int) / m.c) hm.2.1 a1 a2
  refine ⟨(n : Int) / m.c / m.w, (n : Int) / m.c % m.w, (n : Int) % m.c,
    ⟨b1, b2, b3, b4, a3, a4⟩, ?_⟩
  have e : (n : Int) % m.c + (n : Int) / m.c % m.w * m.c + (n : Int) / m.c / m.w * m.c * m.w
      = (n : Int) := by
    have e' : (n : Int) % m.c + ((n : Int) / m.c % m.w + (n : Int) / m.c / m.w * m.w) * m.c
        = (n : Int) := by rw [b5]; exact a5
    linarith
  rw [e]
  exact Int.toNat_ofNat n

/-- Two non-empty buffers of the same shape whose in-bounds pixels agree are
the same buffer, byte for byte. -/
theorem ext_of_pixel {a b : Image} (ha : a.NonEmpty) (hb : b.NonEmpty) (hs : a.SameShape b)
    (hp : ∀ x y z, a.InBounds x y z → a.pixel x y z = b.pixel x y z) : a = b := by
  obtain ⟨da, hda, hla⟩ := ha.data
  obtain ⟨db, hdb, hlb⟩ := hb.data
  obtain ⟨s1, s2, s3⟩ := hs
  have hd : da = db := by
    apply List.ext_getElem?
    intro n
    by_cases hn : (n : Int) < a.h * a.w * a.c
    · obtain ⟨x, y, z, hin, hpos⟩ := index_coords ha n hn
      obtain ⟨d1, hd1, hp1, _⟩ := pixel_eq ha hin
      obtain ⟨d2, hd2, hp2, _⟩ := pixel_eq hb ((SameShape.inBounds_iff ⟨s1, s2, s3⟩ x y z).1 hin)
      rw [hda] at hd1
      rw [hdb] at hd2
      simp only [Option.some.injEq] at hd1 hd2
      subst hd1 hd2
      have := hp x y z hin
      rw [hp1, hp2, ← s2, ← s3, hpos] at this
      exact this
    · rw [List.getElem?_eq_none (by omega), List.getElem?_eq_none (by rw [← s1, ← s2, ← s3] at hlb; omega)]
  cases a
  cases b
  simp only at s1 s2 s3 hda hdb
  subst s1 s2 s3 hda hdb hd
  rfl

end Image

namespace Image

/-- The bordered buffer built by `addBorder` holds the original in its
interior, when its byte count is below `2 ^ 64`. -/
theorem addBorder_interior {m : Image} (hm : m.NonEmpty) {hb wb : Int} (fill : Nat)
    (hb0 : 0 ≤ hb) (wb0 : 0 ≤ wb) (hf : (m.h + hb * 2) * (m.w + wb * 2) * m.c < 2 ^ 64) :
    ∃ r, m.addBorder hb wb fill = some r ∧ r.NonEmpty ∧ r.h = m.h + hb * 2 ∧
      r.w = m.w + wb * 2 ∧ r.c = m.c ∧
      ∀ i j k, hb ≤ i → i < hb + m.h → wb ≤ j → j < wb + m.w → 0 ≤ k → k < m.c →
        r.pixel i j k = m.pixel (i - hb) (j - wb) k := by
  have mh : 0 < m.h := hm.1
  have mw : 0 < m.w := hm.2.1
  have mc : 0 < m.c := hm.2.2.1
  have dh : 0 < m.h + hb * 2 := by omega
  have dw : 0 < m.w + wb * 2 := by omega
  have hd := filled_nonEmpty fill dh dw mc hf
  obtain ⟨r, hr, hsh, hne, hpx⟩ := stamp_paints
    ⟨m.h + hb * 2, m.w + wb * 2, m.c, some (List.replicate
      ((m.h + hb * 2) * (m.w + wb * 2) * m.c).toNat fill)⟩ m hb wb
    hd (Or.inr hm) hb0 wb0
  obtain ⟨s1, s2, s3⟩ := hsh
  refine ⟨r, ?_, hne, s1, s2, s3, ?_⟩
  · unfold addBorder
    rw [if_neg (by omega)]
    simp only [mkFilled_eq fill dh dw mc hf, hr, swap]
  · intro i j k i0 i1 j0 j1 k0 k1
    refine (hpx i j k).1 ⟨i0, ?_, j0, ?_, k0, ?_⟩
    · show i < min (m.h + hb * 2) (m.h + hb); omega
    · show j < min (m.w + wb * 2) (m.w + wb); omega
    · show k < min m.c m.c; omega

end Image

/-! ## Layers -/

namespace Image

/-- The copy loops of `layer`: every pixel of the fresh (h,w,1) buffer is
written with channel `z` of the original. -/
theorem layer_paints {m : Image} (hm : m.NonEmpty) {z : Int} (junk : Nat → Nat)
    (hz0 : 0 ≤ z) (hz : z < m.c) :
    ∃ r, m.layer z junk = some r ∧
      Painted ⟨m.h, m.w, 1, some ((List.range (m.h * m.w * 1).toNat).map junk)⟩ r
        (fun i j k => 0 ≤ i ∧ i < m.h ∧ 0 ≤ j ∧ j < m.w ∧ k = 0)
        (fun i j _ => m.pixel i j z) := by
  have mh : 0 < m.h := hm.1
  have mw : 0 < m.w := hm.2.1
  have hf : m.h * m.w * 1 < 2 ^ 64 :=
    fits_one hm
  unfold layer
  rw [if_neg (by omega), mkSized_eq junk mh mw (by decide) hf]
  simp only []
  refine forRange_rule
    (fun a d => Painted ⟨m.h, m.w, 1, some ((List.range (m.h * m.w * 1).toNat).map junk)⟩ d
      (fun i j k => 0 ≤ i ∧ i < a ∧ 0 ≤ j ∧ j < m.w ∧ k = 0) (fun i j _ => m.pixel i j z))
    _ _ _ _ _ (Painted.init (sized_nonEmpty junk mh mw (by decide) hf) _ (fun i j k => by omega))
    ?_ ?_
  · intro a d ha1 ha2 hpa
    refine forRange_rule
      (fun b d => Painted ⟨m.h, m.w, 1, some ((List.range (m.h * m.w * 1).toNat).map junk)⟩ d
        (fun i j k => (0 ≤ i ∧ i < a ∧ 0 ≤ j ∧ j < m.w ∧ k = 0) ∨
          (i = a ∧ 0 ≤ j ∧ j < b ∧ k = 0)) (fun i j _ => m.pixel i j z))
      _ _ _ _ _ (hpa.congr (fun i j k => by omega)) ?_ ?_
    · intro b t hb1 hb2 hpt
      obtain ⟨v, hv⟩ := pixel_isSome hm (x := a) (y := b) (z := z)
        ⟨by omega, by omega, by omega, by omega, by omega, by omega⟩
      have hin : InBounds ⟨m.h, m.w, 1, some ((List.range (m.h * m.w * 1).toNat).map junk)⟩
          a b 0 := by
        show 0 ≤ a ∧ a < m.h ∧ 0 ≤ b ∧ b < m.w ∧ (0 : Int) ≤ 0 ∧ (0 : Int) < 1
        omega
      obtain ⟨t', ht', hpt'⟩ := hpt.store (a := a) (b := b) (e := 0) (v := v) hin hv
      refine ⟨t', ?_, hpt'.congr (fun i j k => by omega)⟩
      simp only [hv, ht']
    · intro s' hs'
      exact hs'.congr (fun i j k => by omega)
  · intro s' hs'
    exact hs'.congr (fun i j k => by omega)

/-- The result of `layer(z)` for a channel of a non-empty buffer. -/
theorem layer_result {m : Image} (hm : m.NonEmpty) {z : Int} (junk : Nat → Nat)
    (hz0 : 0 ≤ z) (hz : z < m.c) :
    ∃ r, m.layer z junk = some r ∧ r.NonEmpty ∧ r.h = m.h ∧ r.w = m.w ∧ r.c = 1 ∧
      ∀ x y, 0 ≤ x → x < m.h → 0 ≤ y → y < m.w → r.pixel x y 0 = m.pixel x y z := by
  obtain ⟨r, hr, ⟨s1, s2, s3⟩, hne, hpx⟩ := layer_paints hm junk hz0 hz
  exact ⟨r, hr, hne, s1, s2, s3, fun x y x0 x1 y0 y1 => (hpx x y 0).1 ⟨x0, x1, y0, y1, rfl⟩⟩

end Image

/-! ## Soundness of the storage is kept -/

theorem forLoop_preserves {σ : Type} (P : σ → Prop) (body : Int → σ → Option σ)
    (hb : ∀ i t t', P t → body i t = some t' → P t') :
    ∀ (n : Nat) (lo : Int) (s s' : σ), P s → forLoop body n lo s = some s' → P s' := by
  intro n
  induction n with
  | zero =>
    intro lo s s' hs h
    simp only [forLoop, Option.some.injEq] at h
    subst h
    exact hs
  | succ n ih =>
    intro lo s s' hs h
    simp only [forLoop] at h
    cases hbody : body lo s with
    | none => rw [hbody] at h; simp at h
    | some t =>
      rw [hbody] at h
      exact ih (lo + 1) t s' (hb lo s t hs hbody) h

/-- A property kept by the body of a loop is kept by the loop. -/
theorem forRange_preserves {σ : Type} (P : σ → Prop) (body : Int → σ → Option σ)
    (hb : ∀ i t t', P t → body i t = some t' → P t') (lo hi : Int) (s s' : σ) (hs : P s)
    (h : forRange lo hi body s = some s') : P s' :=
  forLoop_preserves P body hb _ lo s s' hs h

theorem forLoopBrk_preserves {σ : Type} (P : σ → Prop) (brk : Int → σ → Bool)
    (body : Int → σ → Option σ) (hb : ∀ i t t', P t → body i t = some t' → P t') :
    ∀ (n : Nat) (lo : Int) (s s' : σ), P s → forLoopBrk brk body n lo s = some s' → P s' := by
  intro n
  induction n with
  | zero =>
    intro lo s s' hs h
    simp only [forLoopBrk, Option.some.injEq] at h
    subst h
    exact hs
  | succ n ih =>
    intro lo s s' hs h
    simp only [forLoopBrk] at h
    by_cases hbr : brk lo s = true
    · rw [if_pos hbr] at h
      simp only [Option.some.injEq] at h
      subst h
      exact hs
    · rw [if_neg hbr] at h
      cases hbody : body lo s with
      | none => rw [hbody] at h; simp at h
      | some t =>
        rw [hbody] at h
        exact ih (lo + 1) t s' (hb lo s t hs hbody) h

/-- A property kept by the body of a loop with a `break` is kept by the loop. -/
theorem forRangeBrk_preserves {σ : Type} (P : σ → Prop) (brk : Int → σ → Bool)
    (body : Int → σ → Option σ) (hb : ∀ i t t', P t → body i t = some t' → P t')
    (lo hi : Int) (s s' : σ) (hs : P s) (h : forRangeBrk lo hi brk body s = some s') : P s' :=
  forLoopBrk_preserves P brk body hb _ lo s s' hs h

namespace Image

/-- A well-formed buffer is sound. -/
theorem WellFormed.sound {m : Image} (hw : m.WellFormed) : m.Sound := by
  rcases hw with h | hne
  · exact Or.inl h
  · refine Or.inr ⟨hne.1, hne.2.1, hne.2.2.1, ?_⟩
    rw [hne.size_eq]
    exact hne.2.2.2.1

/-- A sound buffer whose byte count `h * w * c` is below `2 ^ 64` is
well-formed. -/
theorem Sound.wellFormed {m : Image} (hs : m.Sound) (hb : m.h * m.w * m.c < 2 ^ 64) :
    m.WellFormed := by
  rcases hs with h | ⟨a1, a2, a3, a4⟩
  · exact Or.inl h
  · refine Or.inr ⟨a1, a2, a3, ?_, hb⟩
    have hp : 0 < m.h * m.w * m.c := Int.mul_pos (Int.mul_pos a1 a2) a3
    have e : m.size = m.h * m.w * m.c := by
      show (m.h * m.w * m.c) % 2 ^ 64 = m.h * m.w * m.c
      exact Int.emod_eq_of_lt (by omega) hb
    rw [← e]
    exact a4

theorem sound_set {m : Image} {d : List Nat} (hs : m.Sound) (hd : m.pdata = some d)
    (i v : Nat) : Sound { m with pdata := some (d.set i v) } := by
  rcases hs with ⟨_, _, _, h4⟩ | ⟨a1, a2, a3, a4⟩
  · rw [hd] at h4; simp at h4
  · right
    refine ⟨a1, a2, a3, ?_⟩
    rw [hd] at a4
    show Option.map (fun d => (d.length : Int)) (some (d.set i v)) = some m.size
    simpa using a4

theorem storePixel_sound {m m' : Image} {x y z : Int} {v : Nat} (hs : m.Sound)
    (h : m.storePixel x y z v = some m') : m'.Sound := by
  unfold storePixel at h
  cases ho : m.offset x y z with
  | none => rw [ho] at h; simp at h
  | some pos =>
    rw [ho] at h
    cases hd : m.pdata with
    | none => rw [hd] at h; simp at h
    | some d =>
      rw [hd] at h
      simp only [] at h
      split_ifs at h
      simp only [Option.some.injEq] at h
      subst h
      exact sound_set hs hd pos v

theorem rawSet_sound {m m' : Image} {i v : Nat} (hs : m.Sound)
    (h : m.rawSet i v = some m') : m'.Sound := by
  unfold rawSet at h
  cases hd : m.pdata with
  | none => rw [hd] at h; simp at h
  | some d =>
    rw [hd] at h
    simp only [] at h
    split_ifs at h
    simp only [Option.some.injEq] at h
    subst h
    exact sound_set hs hd i v

/-- A fresh allocation of `size()` bytes for a positive shape is sound. -/
theorem sized_sound {h w c : Int} (junk : Nat → Nat) (hh : 0 < h) (hw : 0 < w) (hc : 0 < c) :
    Sound ⟨h, w, c, some ((List.range ((h * w * c) % 2 ^ 64).toNat).map junk)⟩ := by
  refine Or.inr ⟨hh, hw, hc, ?_⟩
  show Option.map (fun d => (d.length : Int))
    (some ((List.range ((h * w * c) % 2 ^ 64).toNat).map junk)) = some ((h * w * c) % 2 ^ 64)
  simp only [Option.map_some', List.length_map, List.length_range]
  rw [Int.toNat_of_nonneg (by omega)]

theorem mkSized_sound {h w c : Int} {junk : Nat → Nat} {r : Image}
    (hr : mkSized h w c junk = some r) : r.Sound := by
  obtain ⟨hh, hw, hc, _, he⟩ := mkSized_some hr
  rw [he]
  exact sized_sound junk hh hw hc

theorem mkFilled_sound {h w c : Int} {pxl : Nat} {r : Image}
    (hr : mkFilled h w c pxl = some r) : r.Sound := by
  unfold mkFilled at hr
  split_ifs at hr with h1
  simp only [Option.some.injEq] at hr
  subst hr
  refine Or.inr ⟨h1.1, h1.2.1, h1.2.2, ?_⟩
  show Option.map (fun d => (d.length : Int))
    (some (List.replicate ((h * w * c) % 2 ^ 64).toNat pxl)) = some ((h * w * c) % 2 ^ 64)
  simp only [Option.map_some', List.length_replicate]
  rw [Int.toNat_of_nonneg (by omega)]

/-- A sound buffer for which `empty()` is true is the empty buffer. -/
theorem Sound.zero_of_empty {m : Image} (hs : m.Sound) (he : m.empty = some true) :
    m.h = 0 ∧ m.w = 0 ∧ m.c = 0 ∧ m.pdata = none := by
  rcases hs with h | ⟨_, _, _, a4⟩
  · exact h
  · unfold empty at he
    cases hd : m.pdata with
    | none => rw [hd] at a4; simp at a4
    | some d =>
      rw [hd] at he
      by_cases h0 : m.size = 0
      · rw [if_pos h0] at he; simp at he
      · rw [if_neg h0] at he; simp at he

/-- A sound buffer for which `empty()` is false has a positive shape. -/
theorem Sound.pos_of_not_empty {m : Image} (hs : m.Sound) (he : m.empty = some false) :
    0 < m.h ∧ 0 < m.w ∧ 0 < m.c := by
  rcases hs with ⟨h1, h2, h3, h4⟩ | ⟨a1, a2, a3, _⟩
  · unfold empty size at he
    rw [h1, h2, h3, h4] at he
    simp at he
  · exact ⟨a1, a2, a3⟩

theorem sound_mkEmpty : Sound ⟨0, 0, 0, none⟩ := Or.inl ⟨rfl, rfl, rfl, rfl⟩

theorem wf_mkEmpty : WellFormed ⟨0, 0, 0, none⟩ := Or.inl ⟨rfl, rfl, rfl, rfl⟩

/-- The copy loop of the copying constructors keeps the fresh buffer sound. -/
theorem copy_loop_sound {m r : Image} (n : Int) (src : Nat → Option Nat) (hs : m.Sound)
    (hr : forRange 0 n (fun i d =>
        match src i.toNat with
        | none => none
        | some v => d.rawSet i.toNat v) m = some r) : r.Sound := by
  refine forRange_preserves Sound _ ?_ _ _ _ _ hs hr
  intro i t t' ht hb
  cases hsrc : src i.toNat with
  | none => rw [hsrc] at hb; simp at hb
  | some v =>
    rw [hsrc] at hb
    exact rawSet_sound ht hb

end Image

namespace Image

theorem mkFromVector_sound {h w c : Int} {data : List Nat} {junk : Nat → Nat} {r : Image}
    (hr : mkFromVector h w c data junk = some r) : r.Sound := by
  unfold mkFromVector at hr
  split_ifs at hr with h1
  dsimp only at hr
  split_ifs at hr with h2
  exact copy_loop_sound _ (fun n => data[n]?) (sized_sound junk h1.1 h1.2.1 h1.2.2) hr

theorem mkFromPointer_sound {h w c : Int} {pdata : Option (List Nat)} {junk : Nat → Nat}
    {r : Image} (hr : mkFromPointer h w c pdata junk = some r) : r.Sound := by
  unfold mkFromPointer at hr
  split_ifs at hr with h1
  cases pdata with
  | none => simp at hr
  | some data =>
    exact copy_loop_sound _ (fun n => data[n]?) (sized_sound junk h1.1 h1.2.1 h1.2.2) hr

theorem mkCopy_sound {image : Image} {junk : Nat → Nat} {r : Image} (hs : image.Sound)
    (hr : mkCopy image junk = some r) : r.Sound := by
  unfold mkCopy at hr
  cases he : image.empty with
  | none => rw [he] at hr; simp at hr
  | some b =>
    rw [he] at hr
    cases b with
    | true =>
      obtain ⟨e1, e2, e3, _⟩ := hs.zero_of_empty he
      simp only [Option.some.injEq] at hr
      subst hr
      exact Or.inl ⟨e1, e2, e3, rfl⟩
    | false =>
      obtain ⟨a1, a2, a3⟩ := hs.pos_of_not_empty he
      exact copy_loop_sound _ (fun n => image.rawGet n) (sized_sound junk a1 a2 a3) hr

theorem copyAssign_sound {m image : Image} {junk : Nat → Nat} {r : Image}
    (hs : image.Sound) (hr : copyAssign m image junk = some r) : r.Sound := by
  unfold copyAssign at hr
  cases he : image.empty with
  | none => rw [he] at hr; simp at hr
  | some b =>
    rw [he] at hr
    cases b with
    | true =>
      simp only [Option.some.injEq] at hr
      subst hr
      exact sound_mkEmpty
    | false =>
      obtain ⟨a1, a2, a3⟩ := hs.pos_of_not_empty he
      exact copy_loop_sound _ (fun n => image.rawGet n) (sized_sound junk a1 a2 a3) hr

theorem addPixel_sound {m m' : Image} {x y z : Int} {v : Nat} (hs : m.Sound)
    (h : m.addPixel x y z v = some m') : m'.Sound := by
  unfold addPixel at h
  cases hp : m.pixel x y z with
  | none => rw [hp] at h; simp at h
  | some p =>
    rw [hp] at h
    exact storePixel_sound hs h

theorem subPixel_sound {m m' : Image} {x y z : Int} {v : Nat} (hs : m.Sound)
    (h : m.subPixel x y z v = some m') : m'.Sound := by
  unfold subPixel at h
  cases hp : m.pixel x y z with
  | none => rw [hp] at h; simp at h
  | some p =>
    rw [hp] at h
    simp only [] at h
    split_ifs at h
    · exact storePixel_sound hs h
    · exact storePixel_sound hs h

theorem fill_loop_sound {m m' : Image} (v : Nat) (n : Int) (hs : m.Sound)
    (h : forRange 0 n (fun i d => d.rawSet i.toNat v) m = some m') : m'.Sound :=
  forRange_preserves Sound _ (fun _ _ _ ht hb => rawSet_sound ht hb) _ _ _ _ hs h

end Image

namespace Image

/-- The resampler rewrites the bytes of the output allocation in place: a sound
output buffer stays sound. -/
theorem resample_sound (rs : Resample) (src : Image) (a b c : Int) {out r : Image}
    (d e f g : Int) (ho : out.Sound) (hr : resampleInto rs src a b c out d e f g = some r) :
    r.Sound := by
  unfold resampleInto at hr
  cases hsd : src.pdata with
  | none => rw [hsd] at hr; simp at hr
  | some ds =>
    cases hd : out.pdata with
    | none => rw [hsd, hd] at hr; simp at hr
    | some dd =>
      rw [hsd, hd] at hr
      simp only [] at hr
      split_ifs at hr
      simp only [Option.some.injEq] at hr
      subst hr
      rcases ho with ⟨_, _, _, h4⟩ | ⟨a1, a2, a3, a4⟩
      · rw [hd] at h4; simp at h4
      · refine Or.inr ⟨a1, a2, a3, ?_⟩
        rw [hd] at a4
        show Option.map (fun (d : List Nat) => (d.length : Int)) (some _) = some out.size
        simp only [Option.map_some', List.length_map, List.length_range]
        simpa using a4

theorem resize_sound {m r : Image} {nh nw : Int} {rs : Resample} {junk : Nat → Nat} {k : Nat}
    (hs : m.Sound) (hr : m.resize nh nw rs junk = some (r, k)) : r.Sound := by
  unfold resize at hr
  split_ifs at hr with h1 h2 h3
  · simp only [Option.some.injEq, Prod.mk.injEq] at hr
    rw [← hr.1]; exact hs
  · cases hmk : mkSized nh nw m.c junk with
    | none => rw [hmk] at hr; simp at hr
    | some image =>
      rw [hmk] at hr
      simp only [] at hr
      split at hr
      · simp at hr
      · rename_i image' hrs
        simp only [swap, Option.some.injEq, Prod.mk.injEq] at hr
        rw [← hr.1]
        exact resample_sound rs m _ _ _ _ _ _ _ (mkSized_sound hmk) hrs

theorem resizeHeight_sound {m r : Image} {nh : Int} {rs : Resample} {junk : Nat → Nat} {k : Nat}
    (hs : m.Sound) (hr : m.resizeHeight nh rs junk = some (r, k)) : r.Sound := by
  unfold resizeHeight at hr
  split_ifs at hr with h1 h2
  · simp only [Option.some.injEq, Prod.mk.injEq] at hr
    rw [← hr.1]; exact hs
  · cases he : m.empty with
    | none => rw [he] at hr; simp at hr
    | some b =>
      rw [he] at hr
      cases b with
      | true =>
        simp only [Option.some.injEq, Prod.mk.injEq] at hr
        rw [← hr.1]; exact hs
      | false =>
        simp only [] at hr
        cases hmk : mkSized nh m.w m.c junk with
        | none => rw [hmk] at hr; simp at hr
        | some image =>
          rw [hmk] at hr
          simp only [] at hr
          split at hr
          · simp at hr
          · rename_i image' hrs
            simp only [swap, Option.some.injEq, Prod.mk.injEq] at hr
            rw [← hr.1]
            exact resample_sound rs m _ _ _ _ _ _ _ (mkSized_sound hmk) hrs

theorem resizeWidth_sound {m r : Image} {nw : Int} {rs : Resample} {junk : Nat → Nat} {k : Nat}
    (hs : m.Sound) (hr : m.resizeWidth nw rs junk = some (r, k)) : r.Sound := by
  unfold resizeWidth at hr
  split_ifs at hr with h1 h2
  · simp only [Option.some.injEq, Prod.mk.injEq] at hr
    rw [← hr.1]; exact hs
  · cases he : m.empty with
    | none => rw [he] at hr; simp at hr
    | some b =>
      rw [he] at hr
      cases b with
      | true =>
        simp only [Option.some.injEq, Prod.mk.injEq] at hr
        rw [← hr.1]; exact hs
      | false =>
        simp only [] at hr
        cases hmk : mkSized m.h nw m.c junk with
        | none => rw [hmk] at hr; simp at hr
        | some image =>
          rw [hmk] at hr
          simp only [] at hr
          split at hr
          · simp at hr
          · rename_i image' hrs
            simp only [swap, Option.some.injEq, Prod.mk.injEq] at hr
            rw [← hr.1]
            exact resample_sound rs m _ _ _ _ _ _ _ (mkSized_sound hmk) hrs

theorem resizeTo_sound {m t : Image} {rs : Resample} {b : Bool} {t' : Option Image} {k : Nat}
    (hs : t.Sound) (hr : m.resizeTo (some t) rs = some (b, t', k)) :
    ∀ o ∈ t'.toList, o.Sound := by
  unfold resizeTo at hr
  simp only [] at hr
  cases he : t.empty with
  | none => rw [he] at hr; simp at hr
  | some e =>
    rw [he] at hr
    cases e with
    | true =>
      simp only [Option.some.injEq, Prod.mk.injEq] at hr
      rw [← hr.2.1]
      intro o ho
      simp only [Option.toList_some, List.mem_singleton] at ho
      rw [ho]; exact hs
    | false =>
      simp only [] at hr
      split_ifs at hr with h1 h2
      · simp only [Option.some.injEq, Prod.mk.injEq] at hr
        rw [← hr.2.1]
        intro o ho
        simp only [Option.toList_some, List.mem_singleton] at ho
        rw [ho]; exact hs
      · split at hr
        · simp at hr
        · rename_i t2 hrs
          simp only [Option.some.injEq, Prod.mk.injEq] at hr
          rw [← hr.2.1]
          intro o ho
          simp only [Option.toList_some, List.mem_singleton] at ho
          rw [ho]
          exact resample_sound rs m _ _ _ _ _ _ _ hs hrs

theorem resize_tail_sound {m r : Image} {nh nw : Int} {rs : Resample} {junk : Nat → Nat}
    {k : Nat} (hs : m.Sound)
    (hr : (if nh = m.h ∧ nw = m.w then some (m, 0) else m.resize nh nw rs junk) = some (r, k)) :
    r.Sound := by
  split_ifs at hr with h1
  · simp only [Option.some.injEq, Prod.mk.injEq] at hr
    rw [← hr.1]; exact hs
  · exact resize_sound hs hr

theorem resizeOnSmallerSide_sound {m r : Image} {n : Int} {rs : Resample} {junk : Nat → Nat}
    {k : Nat} (hs : m.Sound) (hr : m.resizeOnSmallerSide n rs junk = some (r, k)) :
    r.Sound := by
  unfold resizeOnSmallerSide cdiv at hr
  simp only [] at hr
  split_ifs at hr <;> exact resize_tail_sound hs hr

theorem resizeOnLargerSide_sound {m r : Image} {n : Int} {rs : Resample} {junk : Nat → Nat}
    {k : Nat} (hs : m.Sound) (hr : m.resizeOnLargerSide n rs junk = some (r, k)) :
    r.Sound := by
  unfold resizeOnLargerSide cdiv at hr
  simp only [] at hr
  split_ifs at hr <;> exact resize_tail_sound hs hr

end Image

namespace Image

theorem layer_sound {m r : Image} {z : Int} {junk : Nat → Nat}
    (hr : m.layer z junk = some r) : r.Sound := by
  unfold layer at hr
  split_ifs at hr with h1
  · simp only [Option.some.injEq] at hr
    rw [← hr]; exact sound_mkEmpty
  · cases hmk : mkSized m.h m.w 1 junk with
    | none => rw [hmk] at hr; simp at hr
    | some image =>
      rw [hmk] at hr
      refine forRange_preserves Sound _ ?_ _ _ _ _ (mkSized_sound hmk) hr
      intro x t t' ht hb
      refine forRange_preserves Sound _ ?_ _ _ _ _ ht hb
      intro y u u' hu hb'
      cases hp : m.pixel x y z with
      | none => rw [hp] at hb'; simp at hb'
      | some v =>
        rw [hp] at hb'
        exact storePixel_sound hu hb'

theorem layers_sound {m : Image} {junk : Int → Nat → Nat} {l : List Image}
    (hr : m.layers junk = some l) : ∀ o ∈ l, o.Sound := by
  unfold layers at hr
  refine forRange_preserves (fun l => ∀ o ∈ l, o.Sound) _ ?_ _ _ _ _
    (fun o ho => by simp at ho) hr
  intro z t t' ht hb
  cases hl : m.layer z (junk z) with
  | none => rw [hl] at hb; simp at hb
  | some im =>
    rw [hl] at hb
    simp only [Option.some.injEq] at hb
    subst hb
    intro o ho
    rcases List.mem_append.mp ho with h1 | h1
    · exact ht o h1
    · simp only [List.mem_singleton] at h1
      rw [h1]; exact layer_sound hl

theorem stamp_sound {m img r : Image} {x y : Int} (hs : m.Sound)
    (hr : m.stamp img x y = some r) : r.Sound := by
  unfold stamp at hr
  refine forRange_preserves Sound _ ?_ _ _ _ _ hs hr
  intro a t t' ht hb
  refine forRange_preserves Sound _ ?_ _ _ _ _ ht hb
  intro b u u' hu hb'
  refine forRangeBrk_preserves Sound _ _ ?_ _ _ _ _ hu hb'
  intro z v v' hv hb''
  cases hp : img.pixel (a - x) (b - y) z with
  | none => rw [hp] at hb''; simp at hb''
  | some p =>
    rw [hp] at hb''
    exact storePixel_sound hv hb''

theorem addBorder_sound {m r : Image} {hb wb : Int} {pxl : Nat} (hs : m.Sound)
    (hr : m.addBorder hb wb pxl = some r) : r.Sound := by
  unfold addBorder at hr
  split_ifs at hr with h1
  · simp only [Option.some.injEq] at hr
    rw [← hr]; exact hs
  · simp only [] at hr
    cases hmk : mkFilled (m.h + hb * 2) (m.w + wb * 2) m.c pxl with
    | none => rw [hmk] at hr; simp at hr
    | some image =>
      rw [hmk] at hr
      simp only [] at hr
      cases hst : image.stamp m hb wb with
      | none => rw [hst] at hr; simp at hr
      | some image' =>
        rw [hst] at hr
        simp only [swap, Option.some.injEq] at hr
        rw [← hr]
        exact stamp_sound (mkFilled_sound hmk) hst

theorem crop_sound {m r : Image} {h w x y : Int} {junk : Nat → Nat} {b : Bool}
    (hs : m.Sound) (hr : m.crop h w x y junk = some (b, r)) : r.Sound := by
  rw [crop_unfold] at hr
  cases he : m.empty with
  | none => rw [he] at hr; simp at hr
  | some e =>
    rw [he] at hr
    cases e with
    | true =>
      simp only [Option.some.injEq, Prod.mk.injEq] at hr
      rw [← hr.2]; exact hs
    | false =>
      simp only [] at hr
      split_ifs at hr with c1 c2 c3
      · simp only [Option.some.injEq, Prod.mk.injEq] at hr
        rw [← hr.2]; exact hs
      · simp only [Option.some.injEq, Prod.mk.injEq] at hr
        rw [← hr.2]; exact hs
      · simp only [Option.some.injEq, Prod.mk.injEq] at hr
        rw [← hr.2]; exact hs
      · cases hmk : mkSized h w m.c junk with
        | none => rw [hmk] at hr; simp at hr
        | some image =>
          rw [hmk] at hr
          simp only [] at hr
          split at hr
          · simp at hr
          · rename_i image' hloop
            simp only [swap, Option.some.injEq, Prod.mk.injEq] at hr
            rw [← hr.2]
            refine forRange_preserves Sound _ ?_ _ _ _ _ (mkSized_sound hmk) hloop
            intro a t t' ht hb
            refine forRange_preserves Sound _ ?_ _ _ _ _ ht hb
            intro b' u u' hu hb'
            refine forRange_preserves Sound _ ?_ _ _ _ _ hu hb'
            intro z v v' hv hb''
            cases hp : m.pixel a b' z with
            | none => rw [hp] at hb''; simp at hb''
            | some p =>
              rw [hp] at hb''
              exact storePixel_sound hv hb''

theorem centerCropWithRatio_sound {m r : Image} {hr' wr : ℚ} {scale : ℚ → Int → Int}
    {junk : Nat → Nat} {b : Bool} (hs : m.Sound)
    (hr : m.centerCropWithRatio hr' wr scale junk = some (b, r)) : r.Sound := by
  have tail : ∀ h w : Int,
      (if h = m.h ∧ w = m.w then some (true, m) else m.centerCrop h w junk) = some (b, r) →
      r.Sound := by
    intro h w ht
    split_ifs at ht with h3
    · simp only [Option.some.injEq, Prod.mk.injEq] at ht
      rw [← ht.2]; exact hs
    · exact crop_sound hs ht
  unfold centerCropWithRatio at hr
  by_cases h1 : hr' ≤ 0
  · rw [if_pos h1] at hr
    simp only [Option.some.injEq, Prod.mk.injEq] at hr
    rw [← hr.2]; exact hs
  · rw [if_neg h1] at hr
    by_cases h2 : wr ≤ 0
    · rw [if_pos h2] at hr
      simp only [Option.some.injEq, Prod.mk.injEq] at hr
      rw [← hr.2]; exact hs
    · rw [if_neg h2] at hr
      exact tail _ _ hr

theorem centerSquaredCrop_sound {m r : Image} {ratio : ℚ} {scale : ℚ → Int → Int}
    {junk : Nat → Nat} {b : Bool} (hs : m.Sound)
    (hr : m.centerSquaredCrop ratio scale junk = some (b, r)) : r.Sound := by
  unfold centerSquaredCrop at hr
  split_ifs at hr with h1
  · exact crop_sound hs hr
  · exact crop_sound hs hr

theorem load_wf {m r : Image} {dec : Decoded} {n : Int} {b : Bool} (hw : m.WellFormed)
    (hf : dec.Fits n) (hr : m.load dec n = some (b, r)) : r.WellFormed := by
  unfold load at hr
  cases hmem : dec.mem with
  | none =>
    rw [hmem] at hr
    simp only [Option.some.injEq, Prod.mk.injEq] at hr
    rw [← hr.2]; exact hw
  | some d =>
    rw [hmem] at hr
    simp only [] at hr
    split_ifs at hr with h1 h2 h3 h4
    · simp only [Option.some.injEq, Prod.mk.injEq] at hr
      rw [← hr.2]; exact hw
    · simp only [Option.some.injEq, Prod.mk.injEq] at hr
      rw [← hr.2]; exact hw
    · simp only [Option.some.injEq, Prod.mk.injEq] at hr
      rw [← hr.2]; exact hw
    all_goals
      obtain ⟨hlen, hbd⟩ : (d.length : Int) = dec.h * dec.w * n ∧ dec.h * dec.w * n < 2 ^ 64 := by
        rcases hf with hf | hf
        · rw [hmem] at hf; simp at hf
        · rw [hmem] at hf; exact ⟨by simpa using hf.1, hf.2⟩
      unfold mkShared at hr
      split_ifs at hr with g1 g2
      simp only [swap, Option.some.injEq, Prod.mk.injEq] at hr
      rw [← hr.2]
      refine Or.inr ⟨g1.1, g1.2.1, g1.2.2, ?_, ?_⟩
      · simp only [Option.map_some']
        rw [hlen]
        try (congr 2; omega)
      · first
          | exact hbd
          | (have e : dec.c = n := by omega
             show dec.h * dec.w * dec.c < 2 ^ 64
             rw [e]; exact hbd)

end Image

/-! ## Fatal first iterations and the success condition of crop -/

/-- A loop whose first iteration is fatal is fatal. -/
theorem forRange_first_none {σ : Type} (body : Int → σ → Option σ) (lo hi : Int) (s : σ)
    (hlt : lo < hi) (hb : body lo s = none) : forRange lo hi body s = none := by
  unfold forRange
  obtain ⟨n, hn⟩ : ∃ n, (hi - lo).toNat = n + 1 := ⟨(hi - lo).toNat - 1, by omega⟩
  rw [hn]
  simp only [forLoop, hb]

/-- A loop with a `break` whose first iteration does not break and is fatal is
fatal. -/
theorem forRangeBrk_first_none {σ : Type} (brk : Int → σ → Bool) (body : Int → σ → Option σ)
    (lo hi : Int) (s : σ) (hlt : lo < hi) (hk : brk lo s = false) (hb : body lo s = none) :
    forRangeBrk lo hi brk body s = none := by
  unfold forRangeBrk
  obtain ⟨n, hn⟩ : ∃ n, (hi - lo).toNat = n + 1 := ⟨(hi - lo).toNat - 1, by omega⟩
  rw [hn]
  simp only [forLoopBrk, hk, hb]
  simp

namespace Image

theorem storePixel_none {m : Image} {x y z : Int} (v : Nat) (hb : ¬ m.InBounds x y z) :
    m.storePixel x y z v = none := by
  unfold storePixel
  rw [offset_none hb]

/-- The first store of `stamp` is at the destination coordinate (x, y, 0); when
that coordinate is out of bounds and the loops are entered, `stamp` is fatal. -/
theorem stamp_first_store {m img : Image} {x y : Int} (hm : m.NonEmpty) (hi : img.NonEmpty)
    (hx : x < m.h) (hy : y < m.w) (hout : ¬ m.InBounds x y 0) :
    m.stamp img x y = none := by
  have ih := hi.1
  have iw := hi.2.1
  have ic := hi.2.2.1
  have mc := hm.2.2.1
  unfold stamp
  apply forRange_first_none _ _ _ _ (by omega)
  apply forRange_first_none _ _ _ _ (by omega)
  apply forRangeBrk_first_none _ _ _ _ _ mc
  · exact decide_eq_false (by omega)
  · obtain ⟨v, hv⟩ := pixel_isSome hi (x := x - x) (y := y - y) (z := 0)
      ⟨by omega, by omega, by omega, by omega, by omega, by omega⟩
    simp only [hv]
    exact storePixel_none v hout

end Image
namespace Image

/-- The truncated half of an `int`, by sign. -/
theorem tdiv_two_cases (a : Int) :
    (0 ≤ a → Int.tdiv a 2 = a / 2) ∧ (a < 0 → Int.tdiv a 2 = -((-a) / 2)) := by
  constructor
  · intro ha
    exact tdiv_two ha
  · intro ha
    have e : a = -(-a) := by omega
    rw [e, Int.neg_tdiv, tdiv_two (by omega)]
    simp

/-- With the centre in bounds, the clamped window of `crop` is non-empty
exactly when the requested extent is positive. -/
theorem window_nonempty_iff {H x h : Int} (hx0 : 0 ≤ x) (hx : x < H) :
    max 0 (x - Int.tdiv h 2) < min H (x - Int.tdiv h 2 + h) ↔ 0 < h := by
  obtain ⟨c1, c2⟩ := tdiv_two_cases h
  by_cases hh : 0 ≤ h
  · have e := c1 hh
    omega
  · have e := c2 (by omega)
    omega

end Image

/-- C5, as stated, fails: `crop(4,4,1,1)` on a 4x4x1 buffer succeeds, the
clamped window is 3x3, and the resulting buffer has the requested shape
(4,4,1), not the clamped window's size (3,3,1). -/
theorem crop_clamped_shape_counterexample :
    ∃ r, (Image.mk 4 4 1 (some (List.replicate 16 9))).crop 4 4 1 1 (fun _ => 7) = some (true, r) ∧
      r.h = 4 ∧ r.w = 4 ∧
      min 4 (1 - Int.tdiv 4 2 + 4) - max 0 (1 - Int.tdiv 4 2) = (3 : Int) ∧
      ¬ (r.h = min 4 (1 - Int.tdiv 4 2 + 4) - max 0 (1 - Int.tdiv 4 2) ∧
         r.w = min 4 (1 - Int.tdiv 4 2 + 4) - max 0 (1 - Int.tdiv 4 2) ∧ r.c = 1) :=
  ⟨_, rfl, rfl, rfl, by decide, by decide⟩

/-- C5 (amended): whenever `crop(targetH,targetW,centerX,centerY)` succeeds on
a well-formed buffer, the resulting buffer has the requested shape
(targetH, targetW, channels); the clamped window is non-empty and no larger
than the request (`0 < ex-sx ≤ targetH`, `0 < ey-sy ≤ targetW`), and the result
has the clamped window's size exactly when the window is not clamped. -/
theorem crop_shape (m : Image) (h w x y : Int) (junk : Nat → Nat) (r : Image)
    (hwf : m.WellFormed) (hr : m.crop h w x y junk = some (true, r)) :
    r.h = h ∧ r.w = w ∧ r.c = m.c ∧
      0 < min m.h (x - Int.tdiv h 2 + h) - max 0 (x - Int.tdiv h 2) ∧
      min m.h (x - Int.tdiv h 2 + h) - max 0 (x - Int.tdiv h 2) ≤ h ∧
      0 < min m.w (y - Int.tdiv w 2 + w) - max 0 (y - Int.tdiv w 2) ∧
      min m.w (y - Int.tdiv w 2 + w) - max 0 (y - Int.tdiv w 2) ≤ w ∧
      ((r.h = min m.h (x - Int.tdiv h 2 + h) - max 0 (x - Int.tdiv h 2) ∧
          r.w = min m.w (y - Int.tdiv w 2 + w) - max 0 (y - Int.tdiv w 2)) ↔
        (0 ≤ x - Int.tdiv h 2 ∧ x - Int.tdiv h 2 + h ≤ m.h ∧
          0 ≤ y - Int.tdiv w 2 ∧ y - Int.tdiv w 2 + w ≤ m.w)) := by
  obtain ⟨_, _, _, _, _, hh, hw, c6, c7, _, hp⟩ := Image.crop_true_inv hwf hr
  obtain ⟨⟨s1, s2, s3⟩, _⟩ := hp
  have s1' : r.h = h := s1
  have s2' : r.w = w := s2
  have s3' : r.c = m.c := s3
  refine ⟨s1', s2', s3', by omega, by omega, by omega, by omega, ?_⟩
  rw [s1', s2']
  omega

theorem crop_shape_witness :
    (Image.mk 4 4 1 (some [9, 9, 9, 7, 9, 9, 9, 7, 9, 9, 9, 7, 7, 7, 7, 7])).h = 4 ∧
      (Image.mk 4 4 1 (some [9, 9, 9, 7, 9, 9, 9, 7, 9, 9, 9, 7, 7, 7, 7, 7])).w = 4 ∧
      (Image.mk 4 4 1 (some [9, 9, 9, 7, 9, 9, 9, 7, 9, 9, 9, 7, 7, 7, 7, 7])).c = 1 ∧
      0 < min 4 (1 - Int.tdiv 4 2 + 4) - max 0 (1 - Int.tdiv 4 2) ∧
      min 4 (1 - Int.tdiv 4 2 + 4) - max 0 (1 - Int.tdiv 4 2) ≤ (4 : Int) ∧
      0 < min 4 (1 - Int.tdiv 4 2 + 4) - max 0 (1 - Int.tdiv 4 2) ∧
      min 4 (1 - Int.tdiv 4 2 + 4) - max 0 (1 - Int.tdiv 4 2) ≤ (4 : Int) ∧
      (((4 : Int) = min 4 (1 - Int.tdiv 4 2 + 4) - max 0 (1 - Int.tdiv 4 2) ∧
          (4 : Int) = min 4 (1 - Int.tdiv 4 2 + 4) - max 0 (1 - Int.tdiv 4 2)) ↔
        ((0 : Int) ≤ 1 - Int.tdiv 4 2 ∧ 1 - Int.tdiv 4 2 + 4 ≤ (4 : Int) ∧
          (0 : Int) ≤ 1 - Int.tdiv 4 2 ∧ 1 - Int.tdiv 4 2 + 4 ≤ (4 : Int))) :=
  crop_shape (Image.mk 4 4 1 (some (List.replicate 16 9))) 4 4 1 1 (fun _ => 7)
    (Image.mk 4 4 1 (some [9, 9, 9, 7, 9, 9, 9, 7, 9, 9, 9, 7, 7, 7, 7, 7])) (by decide) (by decide)

/-- C6: whenever `crop(targetH,targetW,centerX,centerY)` succeeds on a
well-formed buffer, the clamped window is copied to the top-left of the
result: for `0 ≤ i < ex-sx`, `0 ≤ j < ey-sy`, `0 ≤ k < channels` the new
pixel (i,j,k) is the old pixel (sx+i, sy+j, k), and the channel count is
unchanged. -/
theorem crop_window_copied (m : Image) (h w x y : Int) (junk : Nat → Nat) (r : Image)
    (hwf : m.WellFormed) (hr : m.crop h w x y junk = some (true, r)) :
    r.c = m.c ∧
      ∀ i j k, 0 ≤ i → i < min m.h (x - Int.tdiv h 2 + h) - max 0 (x - Int.tdiv h 2) →
        0 ≤ j → j < min m.w (y - Int.tdiv w 2 + w) - max 0 (y - Int.tdiv w 2) →
        0 ≤ k → k < m.c →
        ∃ v, m.pixel (max 0 (x - Int.tdiv h 2) + i) (max 0 (y - Int.tdiv w 2) + j) k = some v ∧
          r.pixel i j k = some v := by
  obtain ⟨hm, _, _, _, _, _, _, _, _, _, hp⟩ := Image.crop_true_inv hwf hr
  obtain ⟨⟨_, _, s3⟩, hpx⟩ := hp
  refine ⟨s3, ?_⟩
  intro i j k i0 i1 j0 j1 k0 k1
  obtain ⟨v, hv⟩ := Image.pixel_isSome hm
    (x := max 0 (x - Int.tdiv h 2) + i) (y := max 0 (y - Int.tdiv w 2) + j) (z := k)
    ⟨by omega, by omega, by omega, by omega, k0, k1⟩
  refine ⟨v, hv, ?_⟩
  rw [← hv]
  exact (hpx i j k).1 ⟨i0, i1, j0, j1, k0, k1⟩

theorem crop_window_copied_witness :
    (1 : Int) = 1 ∧
      ∀ i j k : Int, 0 ≤ i → i < min 3 (1 - Int.tdiv 2 2 + 2) - max 0 (1 - Int.tdiv 2 2) →
        0 ≤ j → j < min 3 (1 - Int.tdiv 2 2 + 2) - max 0 (1 - Int.tdiv 2 2) →
        0 ≤ k → k < 1 →
        ∃ v, (Image.mk 3 3 1 (some [0, 1, 2, 3, 4, 5, 6, 7, 8])).pixel
              (max 0 (1 - Int.tdiv 2 2) + i) (max 0 (1 - Int.tdiv 2 2) + j) k = some v ∧
          (Image.mk 2 2 1 (some [0, 1, 3, 4])).pixel i j k = some v :=
  crop_window_copied (Image.mk 3 3 1 (some [0, 1, 2, 3, 4, 5, 6, 7, 8])) 2 2 1 1 (fun _ => 77)
    (Image.mk 2 2 1 (some [0, 1, 3, 4])) (by decide) (by decide)

/-- C12: `addPixel` is a saturating add: on a non-empty buffer, at an in-bounds
coordinate holding the byte `p ≤ 255` and for a delta `d ≤ 255`, `addPixel`
succeeds, the pixel then holds `min(255, p+d)`, no other pixel changes and the
shape is kept. -/
theorem addPixel_saturates (m : Image) (x y z : Int) (p d : Nat) (hm : m.NonEmpty)
    (hb : m.InBounds x y z) (hp : m.pixel x y z = some p) (hp255 : p ≤ 255) (hd255 : d ≤ 255) :
    ∃ m', m.addPixel x y z d = some m' ∧ m'.pixel x y z = some (min 255 (p + d)) ∧
      min 255 (p + d) ≤ 255 ∧
      (∀ i j k, (i ≠ x ∨ j ≠ y ∨ k ≠ z) → m'.pixel i j k = m.pixel i j k) ∧
      m'.h = m.h ∧ m'.w = m.w ∧ m'.c = m.c := by
  obtain ⟨m', h1, h2, _, h4, h5⟩ := Image.storePixel_spec hm hb
    ((((p : Int) + min (255 - (p : Int)) (d : Int) % 256) % 256).toNat)
  have hv : (((p : Int) + min (255 - (p : Int)) (d : Int) % 256) % 256).toNat = min 255 (p + d) := by
    omega
  refine ⟨m', ?_, ?_, by omega, h5, h2.1, h2.2.1, h2.2.2⟩
  · unfold Image.addPixel
    simp only [hp]
    exact h1
  · rw [h4, hv]

theorem addPixel_saturates_witness :
    ∃ m', (Image.mk 1 2 1 (some [200, 7])).addPixel 0 0 0 100 = some m' ∧
      m'.pixel 0 0 0 = some (min 255 (200 + 100)) ∧ min 255 (200 + 100) ≤ 255 ∧
      (∀ i j k, (i ≠ 0 ∨ j ≠ 0 ∨ k ≠ 0) →
        m'.pixel i j k = (Image.mk 1 2 1 (some [200, 7])).pixel i j k) ∧
      m'.h = 1 ∧ m'.w = 2 ∧ m'.c = 1 :=
  addPixel_saturates (Image.mk 1 2 1 (some [200, 7])) 0 0 0 200 100 (by decide) (by decide)
    (by decide) (by decide) (by decide)

/-- C13: `subPixel` is a saturating subtract: on a non-empty buffer, at an
in-bounds coordinate holding the byte `p ≤ 255` and for a delta `d ≤ 255`,
`subPixel` succeeds, the pixel then holds `max(0, p-d)`, no other pixel changes
and the shape is kept. -/
theorem subPixel_saturates (m : Image) (x y z : Int) (p d : Nat) (hm : m.NonEmpty)
    (hb : m.InBounds x y z) (hp : m.pixel x y z = some p) (hp255 : p ≤ 255) (hd255 : d ≤ 255) :
    ∃ m' v, m.subPixel x y z d = some m' ∧ m'.pixel x y z = some v ∧
      (v : Int) = max 0 ((p : Int) - (d : Int)) ∧
      (∀ i j k, (i ≠ x ∨ j ≠ y ∨ k ≠ z) → m'.pixel i j k = m.pixel i j k) ∧
      m'.h = m.h ∧ m'.w = m.w ∧ m'.c = m.c := by
  by_cases hlt : p < d
  · obtain ⟨m', h1, h2, _, h4, h5⟩ := Image.storePixel_spec hm hb 0
    refine ⟨m', 0, ?_, h4, by omega, h5, h2.1, h2.2.1, h2.2.2⟩
    unfold Image.subPixel
    simp only [hp, if_pos hlt, Image.setPixel]
    exact h1
  · obtain ⟨m', h1, h2, _, h4, h5⟩ := Image.storePixel_spec hm hb
      ((((p : Int) - (d : Int)) % 256).toNat)
    refine ⟨m', _, ?_, h4, by omega, h5, h2.1, h2.2.1, h2.2.2⟩
    unfold Image.subPixel
    simp only [hp, if_neg hlt]
    exact h1

theorem subPixel_saturates_witness :
    ∃ m' v, (Image.mk 1 2 1 (some [20, 7])).subPixel 0 0 0 100 = some m' ∧
      m'.pixel 0 0 0 = some v ∧ (v : Int) = max 0 (((20 : Nat) : Int) - ((100 : Nat) : Int)) ∧
      (∀ i j k, (i ≠ 0 ∨ j ≠ 0 ∨ k ≠ 0) →
        m'.pixel i j k = (Image.mk 1 2 1 (some [20, 7])).pixel i j k) ∧
      m'.h = 1 ∧ m'.w = 2 ∧ m'.c = 1 :=
  subPixel_saturates (Image.mk 1 2 1 (some [20, 7])) 0 0 0 20 100 (by decide) (by decide)
    (by decide) (by decide) (by decide)

/-- C17: move-constructing the object at `this` from the object at `image`, or
move-assigning the object at `image` to a distinct object at `this`, leaves the
source empty (shape (0,0,0), `size() == 0`, no storage), gives the destination
exactly the source's original shape and bytes and changes no other object;
move-assigning an object to itself changes nothing. -/
theorem move_semantics (s : Store) (this image : Nat) :
    (this ≠ image →
      ((s.moveCtor this image) this = s image ∧
        (s.moveCtor this image) image = ⟨0, 0, 0, none⟩ ∧
        ((s.moveCtor this image) image).size = 0 ∧
        ((s.moveCtor this image) image).empty = some true ∧
        ∀ a, a ≠ this → a ≠ image → (s.moveCtor this image) a = s a) ∧
      ((s.moveAssign this image) this = s image ∧
        (s.moveAssign this image) image = ⟨0, 0, 0, none⟩ ∧
        ((s.moveAssign this image) image).size = 0 ∧
        ((s.moveAssign this image) image).empty = some true ∧
        ∀ a, a ≠ this → a ≠ image → (s.moveAssign this image) a = s a)) ∧
    s.moveAssign this this = s := by
  constructor
  · intro hne
    have hne' : image ≠ this := fun e => hne e.symm
    refine ⟨⟨?_, ?_, ?_, ?_, ?_⟩, ⟨?_, ?_, ?_, ?_, ?_⟩⟩
    · simp [Store.moveCtor, Store.swap, Store.clear, hne, hne']
    · simp [Store.moveCtor, Store.swap, Store.clear, hne, hne', Image.clear]
    · simp [Store.moveCtor, Store.swap, Store.clear, hne, hne', Image.clear, Image.size]
    · simp [Store.moveCtor, Store.swap, Store.clear, hne, hne', Image.clear, Image.empty,
        Image.size]
    · intro a h1 h2
      simp [Store.moveCtor, Store.swap, Store.clear, hne, h1, h2]
    · simp [Store.moveAssign, Store.swap, Store.clear, hne, hne']
    · simp [Store.moveAssign, Store.swap, Store.clear, hne, hne', Image.clear]
    · simp [Store.moveAssign, Store.swap, Store.clear, hne, hne', Image.clear, Image.size]
    · simp [Store.moveAssign, Store.swap, Store.clear, hne, hne', Image.clear, Image.empty,
        Image.size]
    · intro a h1 h2
      simp [Store.moveAssign, Store.swap, Store.clear, hne, h1, h2]
  · simp [Store.moveAssign]

theorem move_semantics_witness :
    ((Store.moveCtor (fun a => if a = 1 then Image.mk 1 2 1 (some [5, 6]) else Image.mkEmpty)
          0 1) 0 = Image.mk 1 2 1 (some [5, 6]) ∧
      (Store.moveCtor (fun a => if a = 1 then Image.mk 1 2 1 (some [5, 6]) else Image.mkEmpty)
          0 1) 1 = ⟨0, 0, 0, none⟩) ∧
    ((Store.moveAssign (fun a => if a = 1 then Image.mk 1 2 1 (some [5, 6])
          else Image.mk 1 1 1 (some [9])) 0 1) 0 = Image.mk 1 2 1 (some [5, 6]) ∧
      (Store.moveAssign (fun a => if a = 1 then Image.mk 1 2 1 (some [5, 6])
          else Image.mk 1 1 1 (some [9])) 0 1) 1 = ⟨0, 0, 0, none⟩) :=
  ⟨⟨((move_semantics (fun a => if a = 1 then Image.mk 1 2 1 (some [5, 6]) else Image.mkEmpty)
        0 1).1 (by decide)).1.1,
      ((move_semantics (fun a => if a = 1 then Image.mk 1 2 1 (some [5, 6]) else Image.mkEmpty)
        0 1).1 (by decide)).1.2.1⟩,
    ⟨((move_semantics (fun a => if a = 1 then Image.mk 1 2 1 (some [5, 6])
        else Image.mk 1 1 1 (some [9])) 0 1).1 (by decide)).2.1,
      ((move_semantics (fun a => if a = 1 then Image.mk 1 2 1 (some [5, 6])
        else Image.mk 1 1 1 (some [9])) 0 1).1 (by decide)).2.2.1⟩⟩

/-- C18: on a non-empty buffer of shape (h,w,c), `resize(h,w)` makes no call
of the resampler and leaves the shape and every byte as they were. -/
theorem resize_same_shape (m : Image) (rs : Resample) (junk : Nat → Nat) (hm : m.NonEmpty) :
    m.resize m.h m.w rs junk = some (m, 0) := by
  unfold Image.resize
  rw [if_pos hm.1, if_pos hm.2.1, if_pos ⟨rfl, rfl⟩]

theorem resize_same_shape_witness :
    (Image.mk 1 2 1 (some [5, 6])).resize 1 2 (fun _ _ _ _ _ _ _ _ _ _ => 0) (fun _ => 0) =
      some (Image.mk 1 2 1 (some [5, 6]), 0) :=
  resize_same_shape (Image.mk 1 2 1 (some [5, 6])) (fun _ _ _ _ _ _ _ _ _ _ => 0) (fun _ => 0)
    (by decide)

/-- C21: on a buffer whose height and width are not negative, `aspectRatio()`
returns `max(h,w)/min(h,w)`, as an exact ratio, whenever height and width
differ and the smaller one is nonzero, and returns 0 whenever height equals
width or height or width is 0. -/
theorem aspectRatio_spec (m : Image) (hh : 0 ≤ m.h) (hw : 0 ≤ m.w) :
    (m.h ≠ m.w → min m.h m.w ≠ 0 →
      m.aspectRatio = ((max m.h m.w : Int) : ℚ) / ((min m.h m.w : Int) : ℚ)) ∧
    ((m.h = m.w ∨ m.h = 0 ∨ m.w = 0) → m.aspectRatio = 0) := by
  constructor
  · intro hne hmin
    unfold Image.aspectRatio
    by_cases h1 : m.w < m.h
    · have e1 : max m.h m.w = m.h := by omega
      have e2 : min m.h m.w = m.w := by omega
      rw [if_pos ⟨h1, by omega⟩, e1, e2]
    · have e1 : max m.h m.w = m.w := by omega
      have e2 : min m.h m.w = m.h := by omega
      rw [if_neg (fun hc => h1 hc.1), if_pos ⟨by omega, by omega⟩, e1, e2]
  · intro hc
    unfold Image.aspectRatio
    rw [if_neg (by omega), if_neg (by omega)]

theorem aspectRatio_spec_witness :
    (((3 : Int) ≠ 2 → min (3 : Int) 2 ≠ 0 →
      (Image.mk 3 2 1 (some [1, 2, 3, 4, 5, 6])).aspectRatio =
        ((max 3 2 : Int) : ℚ) / ((min 3 2 : Int) : ℚ)) ∧
    (((3 : Int) = 2 ∨ (3 : Int) = 0 ∨ (2 : Int) = 0) →
      (Image.mk 3 2 1 (some [1, 2, 3, 4, 5, 6])).aspectRatio = 0)) ∧
    (Image.mk 3 2 1 (some [1, 2, 3, 4, 5, 6])).aspectRatio =
      ((max 3 2 : Int) : ℚ) / ((min 3 2 : Int) : ℚ) ∧
    (Image.mk 0 0 0 none).aspectRatio = 0 :=
  ⟨aspectRatio_spec (Image.mk 3 2 1 (some [1, 2, 3, 4, 5, 6])) (by decide) (by decide),
    (aspectRatio_spec (Image.mk 3 2 1 (some [1, 2, 3, 4, 5, 6])) (by decide) (by decide)).1
      (by decide) (by decide),
    (aspectRatio_spec (Image.mk 0 0 0 none) (by decide) (by decide)).2 (Or.inl rfl)⟩

/-- C22 fails on the code: the non-empty square 2x2x1 buffer, a normal image,
gets the aspect ratio 0, which is below 1, although the comment on
`aspectRatio` promises a value of at least 1.0 for every normal image. -/
theorem aspectRatio_square_below_one :
    (Image.mk 2 2 1 (some [1, 2, 3, 4])).NonEmpty ∧
      (Image.mk 2 2 1 (some [1, 2, 3, 4])).aspectRatio = 0 ∧
      ¬ (1 ≤ (Image.mk 2 2 1 (some [1, 2, 3, 4])).aspectRatio) := by
  have e : (Image.mk 2 2 1 (some [1, 2, 3, 4])).aspectRatio = 0 := by
    unfold Image.aspectRatio
    rw [if_neg (by decide), if_neg (by decide)]
  refine ⟨by decide, e, ?_⟩
  rw [e]
  norm_num

/-- C23, as stated, fails: the decoder hands back a buffer and reports the
shape 1x1 with 3 channels, the requested channel count is 0, and `load` does
not return true: the forced channel count 0 is rejected by the assertion
`c_ > 0` of the constructor taking the shared buffer. -/
theorem load_zero_channels_counterexample :
    (Decoded.mk (some [7, 8, 9]) 1 1 3).mem = some [7, 8, 9] ∧
      ¬ ((Decoded.mk (some [7, 8, 9]) 1 1 3).h ≤ 0 ∨ (Decoded.mk (some [7, 8, 9]) 1 1 3).w ≤ 0 ∨
        (Decoded.mk (some [7, 8, 9]) 1 1 3).c ≤ 0) ∧
      Image.mkEmpty.load (Decoded.mk (some [7, 8, 9]) 1 1 3) 0 = none ∧
      ¬ ∃ r, Image.mkEmpty.load (Decoded.mk (some [7, 8, 9]) 1 1 3) 0 = some (true, r) := by
  refine ⟨rfl, by decide, by decide, ?_⟩
  rintro ⟨r, hr⟩
  have hn : Image.mkEmpty.load (Decoded.mk (some [7, 8, 9]) 1 1 3) 0 = none := by decide
  rw [hn] at hr
  simp at hr

/-- C23 (amended): if the decoder returns no buffer or reports `height ≤ 0`,
`width ≤ 0` or `channels ≤ 0`, `load` returns false and the receiving buffer is
unchanged; otherwise, when the requested channel count is positive, `load`
returns true and the receiving buffer has the shape
(decodedHeight, decodedWidth, requestedChannels), whatever channel count the
decoder reported, and holds the decoder's bytes.  The overloads taking a
non-empty byte sequence or a non-null pointer do the same. -/
theorem load_spec (m : Image) (dec : Decoded) (n : Int) (raw : List Nat)
    (ptr : Option (List Nat)) (hraw : raw ≠ []) (hptr : ptr ≠ none) :
    ((dec.mem = none ∨ dec.h ≤ 0 ∨ dec.w ≤ 0 ∨ dec.c ≤ 0) →
      m.load dec n = some (false, m)) ∧
    (dec.mem ≠ none → 0 < dec.h → 0 < dec.w → 0 < dec.c → 0 < n →
      ∃ r, m.load dec n = some (true, r) ∧ r.h = dec.h ∧ r.w = dec.w ∧ r.c = n ∧
        r.pdata = dec.mem) ∧
    m.loadVector raw dec n = m.load dec n ∧
    m.loadPointer ptr dec n = m.load dec n := by
  refine ⟨?_, ?_, ?_, ?_⟩
  · intro hc
    unfold Image.load
    cases hmem : dec.mem with
    | none => rfl
    | some d =>
      simp only []
      rcases hc with hc | hc
      · rw [hmem] at hc; simp at hc
      · split_ifs <;> first | rfl | omega
  · intro hmem hh hw hc hn
    unfold Image.load
    cases hd : dec.mem with
    | none => exact (hmem hd).elim
    | some d =>
      simp only []
      rw [if_neg (by omega), if_neg (by omega), if_neg (by omega)]
      have hcn : (if n ≠ dec.c then n else dec.c) = n := by
        split_ifs with h1
        · rfl
        · omega
      rw [hcn]
      unfold Image.mkShared
      rw [if_pos ⟨hh, hw, hn⟩]
      simp only [Option.isSome_some, if_true, Image.swap]
      exact ⟨_, rfl, rfl, rfl, rfl, rfl⟩
  · unfold Image.loadVector
    cases raw with
    | nil => exact (hraw rfl).elim
    | cons a l => simp
  · unfold Image.loadPointer
    cases ptr with
    | none => exact (hptr rfl).elim
    | some p => simp

theorem load_spec_witness :
    (((Decoded.mk none 5 5 5).mem = none ∨ (Decoded.mk none 5 5 5).h ≤ 0 ∨
        (Decoded.mk none 5 5 5).w ≤ 0 ∨ (Decoded.mk none 5 5 5).c ≤ 0) →
      (Image.mk 1 1 1 (some [4])).load (Decoded.mk none 5 5 5) 3 =
        some (false, Image.mk 1 1 1 (some [4]))) ∧
    (∃ r, (Image.mk 1 1 1 (some [4])).load (Decoded.mk (some [7, 8, 9]) 1 1 4) 3 =
        some (true, r) ∧ r.h = 1 ∧ r.w = 1 ∧ r.c = 3 ∧ r.pdata = some [7, 8, 9]) :=
  ⟨(load_spec (Image.mk 1 1 1 (some [4])) (Decoded.mk none 5 5 5) 3 [1] (some [1])
      (by decide) (by decide)).1,
    (load_spec (Image.mk 1 1 1 (some [4])) (Decoded.mk (some [7, 8, 9]) 1 1 4) 3 [1] (some [1])
      (by decide) (by decide)).2.1 (by decide) (by decide) (by decide) (by decide) (by decide)⟩

/-- C24: `stamp` neither rejects nor clips a negative origin: on a non-empty
destination of shape (H,W,C) and with a non-empty source, for `x < 0` and
`0 ≤ y < W`, and for `y < 0` and `0 ≤ x < H`, the first store of `stamp` is at
the destination coordinate (x, y, 0), the bounds check of `offset` fails there,
and `stamp` ends in that fatal outcome instead of writing the overlap. -/
theorem stamp_negative_origin (m img : Image) (x y : Int) (hm : m.NonEmpty)
    (hi : img.NonEmpty)
    (hneg : (x < 0 ∧ 0 ≤ y ∧ y < m.w) ∨ (y < 0 ∧ 0 ≤ x ∧ x < m.h)) :
    m.stamp img x y = none ∧ m.check x y 0 = false ∧ m.offset x y 0 = none ∧
      ∃ v, img.pixel (x - x) (y - y) 0 = some v ∧ m.storePixel x y 0 v = none := by
  have mh := hm.1
  have mw := hm.2.1
  have hout : ¬ m.InBounds x y 0 := by
    intro hb
    obtain ⟨b1, b2, b3, b4, _, _⟩ := hb
    omega
  have ih := hi.1
  have iw := hi.2.1
  have ic := hi.2.2.1
  obtain ⟨v, hv⟩ := Image.pixel_isSome hi (x := x - x) (y := y - y) (z := 0)
    ⟨by omega, by omega, by omega, by omega, by omega, by omega⟩
  exact ⟨Image.stamp_first_store hm hi (by omega) (by omega) hout, Image.check_eq_false hout,
    Image.offset_none hout, v, hv, Image.storePixel_none v hout⟩

theorem stamp_negative_origin_witness :
    (Image.mk 2 2 1 (some [1, 2, 3, 4])).stamp (Image.mk 1 1 1 (some [9])) (-1) 0 = none ∧
      (Image.mk 2 2 1 (some [1, 2, 3, 4])).check (-1) 0 0 = false ∧
      (Image.mk 2 2 1 (some [1, 2, 3, 4])).offset (-1) 0 0 = none ∧
      ∃ v, (Image.mk 1 1 1 (some [9])).pixel (-1 - -1) (0 - 0) 0 = some v ∧
        (Image.mk 2 2 1 (some [1, 2, 3, 4])).storePixel (-1) 0 0 v = none :=
  stamp_negative_origin (Image.mk 2 2 1 (some [1, 2, 3, 4])) (Image.mk 1 1 1 (some [9])) (-1) 0
    (by decide) (by decide) (by decide)

/-- C26 fails on the code: on the non-empty 2x7x1 buffer `resizeOnLargerSide(3)`
computes the height `(2*3)/7 = 0` and the width 3, `resize(0, 3)` fails its
assertion `new_h > 0`, and the call ends in that fatal outcome. -/
theorem resizeOnLargerSide_zero_height :
    (Image.mk 2 7 1 (some (List.replicate 14 0))).NonEmpty ∧ (0 : Int) < 3 ∧
      Image.cdiv (2 * 3) 7 = some 0 ∧
      (Image.mk 2 7 1 (some (List.replicate 14 0))).resize 0 3
        (fun _ _ _ _ _ _ _ _ _ _ => 0) (fun _ => 0) = none ∧
      (Image.mk 2 7 1 (some (List.replicate 14 0))).resizeOnLargerSide 3
        (fun _ _ _ _ _ _ _ _ _ _ => 0) (fun _ => 0) = none := by
  refine ⟨by decide, by decide, by decide, by decide, by decide⟩

end sas
